import Mathlib

/-!
Verification of the FoodShare donation/claim lifecycle backend.

Shallow embedding of the donation lifecycle engine of the repository:
the mutating route handlers of `src/routes/donation_routes.py` and
`src/routes/ngodashboard_routes.py`, and the scheduler of `app.py`.

Modelling conventions:
- The Supabase row store is a pair of in-memory lists (`food_donations`,
  `ngo_claims`) with auto-incremented integer ids.
- Calendar dates (`expiry_date`, `today`) are day numbers (`Int`);
  claim timestamps (`claimed_at`, `now`, the 24h cutoff) are hours (`Int`).
- Python floats for pickup coordinates are modelled as rationals; the
  range comparisons performed by the handlers are exact on the inputs of
  interest, so no floating-point rounding is relevant.
- Best-effort side effects (notification inserts, e-mails, audit log)
  never feed back into lifecycle state and are omitted from the row
  store; the e-mail try/except isolation of the sweep loops is modelled
  separately where a claim is about it.
- Handlers return a response tag (carrying the HTTP status code) plus the
  ordered list of row-store writes they issue; `applyWrites` executes
  them against the store in order.
-/

namespace FoodShare

/-- Donation `status` column: `available`, `claimed` or `completed`. -/
inductive DStatus where
  | available
  | claimed
  | completed
deriving DecidableEq, Repr

/-- Donation `final_state` column values (the column itself is nullable,
so it is carried as `Option FinalState`). -/
inductive FinalState where
  | expired
  | cancelled_by_donor
  | cancelled_by_ngo
deriving DecidableEq, Repr

/-- Claim `status` column of the `ngo_claims` table. -/
inductive CStatus where
  | claimed
  | completed
  | cancelled
deriving DecidableEq, Repr

/-- A row of the `food_donations` table (columns relevant to the
lifecycle engine; title/description/address and the timestamp columns
other than `expiry_date` carry no lifecycle information). -/
structure Donation where
  id : Nat
  donor_id : Nat
  status : DStatus
  final_state : Option FinalState
  expiry_date : Int
  quantity : Int
  pickup_lat : Option ℚ
  pickup_lng : Option ℚ
deriving DecidableEq, Repr

/-- A row of the `ngo_claims` table. `completed_at`/`cancelled_at` carry
no lifecycle information and are omitted. -/
structure Claim where
  id : Nat
  donation_id : Nat
  ngo_id : Nat
  status : CStatus
  claimed_at : Int
deriving DecidableEq, Repr

/-- The row store: the two lifecycle tables plus the auto-increment
counters for their primary keys. -/
structure DB where
  donations : List Donation
  claims : List Claim
  nextDonationId : Nat
  nextClaimId : Nat
deriving DecidableEq, Repr

def initDB : DB := ⟨[], [], 0, 0⟩

/-- Lookup `.eq("id", i).single()` on `food_donations`. -/
def findDonation (db : DB) (i : Nat) : Option Donation :=
  db.donations.find? fun d => d.id == i

/-- One row-store write, as issued by a handler.  The constructor
arguments record the filter predicate the source attaches to the write. -/
inductive Write where
  /-- Insert into `ngo_claims` with a fresh id (claim_donation step 1). -/
  | insertClaim (donation_id ngo_id : Nat) (claimed_at : Int)
  /-- Update `ngo_claims.update({status: new}).eq("donation_id", did).eq("status", old)`. -/
  | updateClaimsByDonation (donation_id : Nat) (oldStatus newStatus : CStatus)
  /-- Update `ngo_claims.update({status: new}).eq("id", cid)`. -/
  | updateClaimById (claim_id : Nat) (newStatus : CStatus)
  /-- Update `food_donations.update({status: s}).eq("id", i)` (status column only). -/
  | updateDonationStatus (id : Nat) (status : DStatus)
  /-- Update `food_donations.update({final_state: f}).eq("id", i)` (final_state only). -/
  | updateDonationFinal (id : Nat) (final : Option FinalState)
  /-- Update `food_donations.update({status: s, final_state: f}).eq("id", i)`. -/
  | updateDonationBoth (id : Nat) (status : DStatus) (final : Option FinalState)
  /-- Insert `food_donations.insert(...)` (add_donation step 1; id auto-generated). -/
  | insertDonation (donor_id : Nat) (expiry : Int) (quantity : Int)
      (lat lng : Option ℚ)
  /-- donor-edit update: each `some` field overwrites the column,
  `none` leaves it untouched (update_donation builds `update_data`
  only from the fields present in the request). -/
  | updateDonationFields (id : Nat) (quantity : Option Int) (expiry : Option Int)
      (lat lng : Option (Option ℚ))
deriving DecidableEq, Repr

def applyWrite (db : DB) : Write → DB
  | .insertClaim did nid t =>
      { db with
          claims := db.claims ++ [⟨db.nextClaimId, did, nid, CStatus.claimed, t⟩],
          nextClaimId := db.nextClaimId + 1 }
  | .updateClaimsByDonation did old new =>
      { db with claims := db.claims.map fun c =>
          if c.donation_id == did && c.status == old then { c with status := new } else c }
  | .updateClaimById cid new =>
      { db with claims := db.claims.map fun c =>
          if c.id == cid then { c with status := new } else c }
  | .updateDonationStatus i s =>
      { db with donations := db.donations.map fun d =>
          if d.id == i then { d with status := s } else d }
  | .updateDonationFinal i f =>
      { db with donations := db.donations.map fun d =>
          if d.id == i then { d with final_state := f } else d }
  | .updateDonationBoth i s f =>
      { db with donations := db.donations.map fun d =>
          if d.id == i then { d with status := s, final_state := f } else d }
  | .insertDonation donor exp q lat lng =>
      { db with
          donations := db.donations ++
            [⟨db.nextDonationId, donor, DStatus.available, none, exp, q, lat, lng⟩],
          nextDonationId := db.nextDonationId + 1 }
  | .updateDonationFields i q e lat lng =>
      { db with donations := db.donations.map fun d =>
          if d.id == i then
            { d with
                quantity := q.getD d.quantity,
                expiry_date := e.getD d.expiry_date,
                pickup_lat := lat.getD d.pickup_lat,
                pickup_lng := lng.getD d.pickup_lng }
          else d }

def applyWrites (db : DB) (ws : List Write) : DB := ws.foldl applyWrite db

/-! ## NGO claim — `claim_donation`, ngodashboard_routes.py lines 218-297 -/

inductive ClaimResp where
  | notFound
  | conflictFinalized
  | conflictStatus (s : DStatus)
  | conflictExpired
  | success
deriving DecidableEq, Repr

def ClaimResp.code : ClaimResp → Nat
  | .notFound => 404
  | .conflictFinalized => 409
  | .conflictStatus _ => 409
  | .conflictExpired => 409
  | .success => 200

/-- Handler for `PUT /donations/<id>/claim`.  Guards in source order: 404 when the
donation is missing, 409 when `final_state` is non-null, 409 when
`status` is not `available`, 409 when `expiry_date` is past; otherwise
insert a fresh `claimed` row, then set the donation status to
`claimed`.  (The missing-`ngo_id` 400 check precedes all of this in the
source and is independent of the store, so it is not modelled.) -/
def claim_donation (today now : Int) (donation_id ngo_id : Nat) (db : DB) :
    ClaimResp × List Write :=
  match findDonation db donation_id with
  | none => (ClaimResp.notFound, [])
  | some d =>
      if d.final_state ≠ none then (ClaimResp.conflictFinalized, [])
      else if d.status ≠ DStatus.available then (ClaimResp.conflictStatus d.status, [])
      else if d.expiry_date < today then (ClaimResp.conflictExpired, [])
      else (ClaimResp.success,
        [Write.insertClaim donation_id ngo_id now,
         Write.updateDonationStatus donation_id DStatus.claimed])

/-! ## Donor cancel — `cancel_donation`, donation_routes.py lines 368-479 -/

inductive CancelResp where
  | notFound
  | completedImmutable
  | alreadyCancelledByDonor
  | success
deriving DecidableEq, Repr

def CancelResp.code : CancelResp → Nat
  | .notFound => 404
  | .completedImmutable => 400
  | .alreadyCancelledByDonor => 400
  | .success => 200

/-- Handler for `PUT /donations/<id>/cancel`.  Guards: 404 missing, 400 when
completed, 400 when already donor-cancelled.  Then (in this order):
cancel every active claim of the donation (filter `donation_id` +
`status = claimed`), then set the donation to
(`available`, `cancelled_by_donor`). -/
def cancel_donation (donation_id : Nat) (db : DB) : CancelResp × List Write :=
  match findDonation db donation_id with
  | none => (CancelResp.notFound, [])
  | some d =>
      if d.status = DStatus.completed then (CancelResp.completedImmutable, [])
      else if d.final_state = some FinalState.cancelled_by_donor then
        (CancelResp.alreadyCancelledByDonor, [])
      else (CancelResp.success,
        [Write.updateClaimsByDonation donation_id CStatus.claimed CStatus.cancelled,
         Write.updateDonationBoth donation_id DStatus.available
           (some FinalState.cancelled_by_donor)])

/-! ## NGO self-cancel — `ngo_cancel_claim`, donation_routes.py lines 1030-1122 -/

inductive NgoCancelResp where
  | noActiveClaim
  | success
deriving DecidableEq, Repr

def NgoCancelResp.code : NgoCancelResp → Nat
  | .noActiveClaim => 404
  | .success => 200

/-- Handler for `PUT /ngo/claims/<donationId>/cancel`.  Looks up the active claim of
this NGO on this donation (`donation_id` + `ngo_id` + `status=claimed`,
`maybe_single`); 404 when absent.  Then cancels that claim by id and
sets the donation to (`available`, `cancelled_by_ngo`) — without ever
re-reading the donation's own state. -/
def ngo_cancel_claim (donation_id ngo_id : Nat) (db : DB) :
    NgoCancelResp × List Write :=
  match db.claims.find? (fun c =>
      c.donation_id == donation_id && c.ngo_id == ngo_id &&
      c.status == CStatus.claimed) with
  | none => (NgoCancelResp.noActiveClaim, [])
  | some c => (NgoCancelResp.success,
      [Write.updateClaimById c.id CStatus.cancelled,
       Write.updateDonationBoth donation_id DStatus.available
         (some FinalState.cancelled_by_ngo)])

/-! ## Pickup confirmation — `confirm_pickup`, donation_routes.py lines 746-904 -/

inductive PickupResp where
  | notFound
  | blockedFinalized
  | alreadyConfirmed
  | notClaimed
  | success
deriving DecidableEq, Repr

def PickupResp.code : PickupResp → Nat
  | .notFound => 404
  | .blockedFinalized => 400
  | .alreadyConfirmed => 200
  | .notClaimed => 400
  | .success => 200

/-- Handler for `GET /donations/<id>/pickup-confirm`.  Guards in source order:
404 missing; 400 when `final_state` non-null; 200 "already confirmed"
(no writes) when already completed; 400 when not claimed.  Then set the
donation status to `completed`, then complete the active claim rows
(filter `donation_id` + `status = claimed`). -/
def confirm_pickup (donation_id : Nat) (db : DB) : PickupResp × List Write :=
  match findDonation db donation_id with
  | none => (PickupResp.notFound, [])
  | some d =>
      if d.final_state ≠ none then (PickupResp.blockedFinalized, [])
      else if d.status = DStatus.completed then (PickupResp.alreadyConfirmed, [])
      else if d.status ≠ DStatus.claimed then (PickupResp.notClaimed, [])
      else (PickupResp.success,
        [Write.updateDonationStatus donation_id DStatus.completed,
         Write.updateClaimsByDonation donation_id CStatus.claimed CStatus.completed])

/-! ## Auto-expire sweep — `auto_expire_donations`, donation_routes.py lines 485-602 -/

/-- The candidate query of the sweep:
`expiry_date <= today`, `final_state IS NULL`, `status != completed`. -/
def expireCandidates (today : Int) (db : DB) : List Donation :=
  db.donations.filter fun d =>
    decide (d.expiry_date ≤ today) && d.final_state == none &&
    d.status != DStatus.completed

/-- Handler for `PUT /donations/auto-expire`: for each candidate (snapshot taken
once), stamp `final_state = expired`; the status column and claim rows
are not modified. -/
def auto_expire_donations (today : Int) (db : DB) : List Write :=
  (expireCandidates today db).map fun d =>
    Write.updateDonationFinal d.id (some FinalState.expired)

/-! ## Auto-cancel sweep — `auto_cancel_claimed_donations`,
donation_routes.py lines 912-1023 -/

/-- The candidate query of the sweep:
`status = claimed AND claimed_at <= now - 24h` (inclusive cutoff). -/
def cancelCandidates (now : Int) (db : DB) : List Claim :=
  db.claims.filter fun c =>
    c.status == CStatus.claimed && decide (c.claimed_at ≤ now - 24)

/-- Per-row body of the auto-cancel loop: re-fetch the donation from the
live store; skip missing donations and completed donations; otherwise
cancel the claim by id and restore the donation to
(`available`, final_state NULL). -/
def autoCancelRow (db : DB) (c : Claim) : DB :=
  match findDonation db c.donation_id with
  | none => db
  | some d =>
      if d.status = DStatus.completed then db
      else applyWrites db
        [Write.updateClaimById c.id CStatus.cancelled,
         Write.updateDonationBoth c.donation_id DStatus.available none]

/-- Handler for `PUT /donations/auto-cancel-claims`: snapshot the candidates, then
process them in order against the live store. -/
def auto_cancel_claimed_donations (now : Int) (db : DB) : DB :=
  (cancelCandidates now db).foldl autoCancelRow db

/-! ## Donation creation — `add_donation`, donation_routes.py lines 50-193 -/

/-- The validated part of a `POST /donations/add` request body.
`required_present` abstracts the truthiness check on the seven required
fields; `quantity`/`expiry_date` are `none` when `int(...)` /
`date.fromisoformat(...)` would raise.  A coordinate is `none` when the
key is absent or null in the body. -/
structure AddReq where
  required_present : Bool
  donor_id : Nat
  quantity : Option Int
  expiry_date : Option Int
  pickup_lat : Option ℚ
  pickup_lng : Option ℚ
deriving DecidableEq, Repr

inductive AddResp where
  | missingFields
  | invalidQuantity
  | quantityNotPositive
  | invalidExpiry
  | expiryNotFuture
  | coordOutOfRange
  | created
deriving DecidableEq, Repr

def AddResp.code : AddResp → Nat
  | .created => 201
  | _ => 400

/-- Handler for `POST /donations/add`, validation chain in source order.  Note the
coordinate block (source lines 91-100): the range check runs only when
BOTH `pickup_lat` and `pickup_lng` are non-null; otherwise the given
values are inserted as-is, unvalidated. -/
def add_donation (today : Int) (req : AddReq) (db : DB) : AddResp × List Write :=
  if !req.required_present then (AddResp.missingFields, [])
  else
    match req.quantity with
    | none => (AddResp.invalidQuantity, [])
    | some q =>
        if q ≤ 0 then (AddResp.quantityNotPositive, [])
        else
          match req.expiry_date with
          | none => (AddResp.invalidExpiry, [])
          | some exp =>
              if exp ≤ today then (AddResp.expiryNotFuture, [])
              else
                match req.pickup_lat, req.pickup_lng with
                | some la, some ln =>
                    if la < -90 ∨ 90 < la ∨ ln < -180 ∨ 180 < ln then
                      (AddResp.coordOutOfRange, [])
                    else (AddResp.created,
                      [Write.insertDonation req.donor_id exp q (some la) (some ln)])
                | la?, ln? => (AddResp.created,
                    [Write.insertDonation req.donor_id exp q la? ln?])

/-! ## Donor edit — `update_donation`, donation_routes.py lines 197-321 -/

/-- The lifecycle-relevant fields of a `PUT /donations/<id>` body.  For
each field, outer `none` = key absent.  For the coordinates the inner
option mirrors an explicit null in the body (the source stores it).
`other_fields` records whether any of the other editable fields
(title, description, ...) is present. -/
structure UpdateReq where
  quantity : Option Int
  expiry_date : Option Int
  pickup_lat : Option (Option ℚ)
  pickup_lng : Option (Option ℚ)
  other_fields : Bool
deriving DecidableEq, Repr

inductive UpdateResp where
  | notFound
  | notEditable
  | completedNotEditable
  | quantityNotPositive
  | expiryNotFuture
  | noFields
  | success
deriving DecidableEq, Repr

def UpdateResp.code : UpdateResp → Nat
  | .notFound => 404
  | .success => 200
  | _ => 400

/-- Handler for `PUT /donations/<id>`.  Guards: 404 missing; 400 when `final_state`
is non-null; 400 when completed.  Field validation in allowed_fields
order: quantity must be positive, expiry must be a future date;
coordinates are only converted with `float(...)` — NO range check and
no both-present check (source lines 279-287).  400 when no field is
present; otherwise one row update with exactly the provided fields. -/
def UpdateReq.badQuantity (req : UpdateReq) : Bool :=
  match req.quantity with
  | some q => q ≤ 0
  | none => false

def UpdateReq.badExpiry (today : Int) (req : UpdateReq) : Bool :=
  match req.expiry_date with
  | some e => e ≤ today
  | none => false

def UpdateReq.empty (req : UpdateReq) : Bool :=
  req.quantity == none && req.expiry_date == none && req.pickup_lat == none &&
  req.pickup_lng == none && !req.other_fields

def update_donation (today : Int) (donation_id : Nat) (req : UpdateReq) (db : DB) :
    UpdateResp × List Write :=
  match findDonation db donation_id with
  | none => (UpdateResp.notFound, [])
  | some d =>
      if d.final_state ≠ none then (UpdateResp.notEditable, [])
      else if d.status = DStatus.completed then (UpdateResp.completedNotEditable, [])
      else if req.badQuantity then (UpdateResp.quantityNotPositive, [])
      else if req.badExpiry today then (UpdateResp.expiryNotFuture, [])
      else if req.empty then (UpdateResp.noFields, [])
      else (UpdateResp.success,
        [Write.updateDonationFields donation_id req.quantity req.expiry_date
          req.pickup_lat req.pickup_lng])

/-! ## Scheduler — `start_scheduler`, app.py lines 126-130 -/

/-- The route functions that could be registered as periodic jobs. -/
inductive JobFn where
  | send_expiry_reminders
  | auto_expire_donations_fn
  | auto_cancel_claimed_donations_fn
deriving DecidableEq, Repr

structure ScheduledJob where
  fn : JobFn
  interval_hours : Nat
deriving DecidableEq, Repr

/-- The scheduler setup of app.py registers exactly one interval job:
`scheduler.add_job(send_expiry_reminders, "interval", hours=24)`. -/
def start_scheduler : List ScheduledJob := [⟨JobFn.send_expiry_reminders, 24⟩]

/-! ## The lifecycle transition system

One `Action` per mutating entry point; `step` executes the handler
against the store and applies its writes.  `Reachable` is the set of
stores obtainable from the empty store — the time parameters of each
action are arbitrary, so the invariants below hold regardless of clock
behaviour. -/

inductive Action where
  | add (today : Int) (req : AddReq)
  | edit (today : Int) (donation_id : Nat) (req : UpdateReq)
  | claim (today now : Int) (donation_id ngo_id : Nat)
  | donorCancel (donation_id : Nat)
  | ngoCancel (donation_id ngo_id : Nat)
  | pickup (donation_id : Nat)
  | sweepExpire (today : Int)
  | sweepCancel (now : Int)

def step (db : DB) : Action → DB
  | .add t r => applyWrites db (add_donation t r db).2
  | .edit t i r => applyWrites db (update_donation t i r db).2
  | .claim t n i g => applyWrites db (claim_donation t n i g db).2
  | .donorCancel i => applyWrites db (cancel_donation i db).2
  | .ngoCancel i g => applyWrites db (ngo_cancel_claim i g db).2
  | .pickup i => applyWrites db (confirm_pickup i db).2
  | .sweepExpire t => applyWrites db (auto_expire_donations t db)
  | .sweepCancel n => auto_cancel_claimed_donations n db

inductive Reachable : DB → Prop where
  | init : Reachable initDB
  | step (a : Action) {db : DB} : Reachable db → Reachable (step db a)

/-- Number of claim rows of a donation that are currently `claimed`. -/
def claimedCount (db : DB) (did : Nat) : Nat :=
  db.claims.countP fun c => c.donation_id == did && c.status == CStatus.claimed

/-- The reachability invariant of the lifecycle engine. -/
structure Inv (db : DB) : Prop where
  dnodup : (db.donations.map Donation.id).Nodup
  cnodup : (db.claims.map Claim.id).Nodup
  dbound : ∀ d ∈ db.donations, d.id < db.nextDonationId
  cbound : ∀ c ∈ db.claims, c.id < db.nextClaimId
  cref : ∀ c ∈ db.claims, c.donation_id < db.nextDonationId
  one : ∀ d ∈ db.donations,
    claimedCount db d.id = if d.status = DStatus.claimed then 1 else 0
  locked : ∀ d ∈ db.donations,
    d.final_state = some FinalState.cancelled_by_donor → d.status = DStatus.available
  cexists : ∀ c ∈ db.claims, c.status = CStatus.claimed →
    ∃ d ∈ db.donations, d.id = c.donation_id

/-! ### Generic list lemmas for keyed row stores -/

/-- In a list whose keys are nodup, membership plus key equality pins
down the element. -/
theorem key_nodup_eq {α : Type} (key : α → Nat) {l : List α}
    (h : (l.map key).Nodup) {a b : α} (ha : a ∈ l) (hb : b ∈ l)
    (hk : key a = key b) : a = b := by
  induction l with
  | nil => cases ha
  | cons x xs ih =>
      simp only [List.map_cons, List.nodup_cons] at h
      rcases List.mem_cons.mp ha with ha1 | ha2 <;>
        rcases List.mem_cons.mp hb with hb1 | hb2
      · rw [ha1, hb1]
      · exfalso
        apply h.1
        rw [← ha1, hk]
        exact List.mem_map_of_mem key hb2
      · exfalso
        apply h.1
        rw [← hb1, ← hk]
        exact List.mem_map_of_mem key ha2
      · exact ih h.2 ha2 hb2

/-- A keyed pointwise update (`if key x == k then f x else x`) splits a
`countP` around the unique element with that key. -/
theorem countP_update_key {α : Type} (key : α → Nat) {l : List α}
    (h : (l.map key).Nodup) {c : α} (hc : c ∈ l) (f : α → α) (q : α → Bool) :
    (l.map fun x => if key x == key c then f x else x).countP q
      = l.countP q - (if q c then 1 else 0) + (if q (f c) then 1 else 0) := by
  induction l with
  | nil => cases hc
  | cons x xs ih =>
      simp only [List.map_cons, List.nodup_cons] at h
      rcases List.mem_cons.mp hc with hc1 | hc2
      · subst hc1
        have hxs : ∀ y ∈ xs, ¬((key y == key c) = true) := by
          intro y hy hkey
          apply h.1
          rw [← beq_iff_eq.mp hkey]
          exact List.mem_map_of_mem key hy
        have hmap : (xs.map fun y => if key y == key c then f y else y) = xs := by
          rw [show xs.map (fun y => if key y == key c then f y else y) = xs.map id by
                apply List.map_congr_left
                intro y hy
                simp [hxs y hy]]
          exact List.map_id xs
        simp only [List.map_cons, beq_self_eq_true, if_true, List.countP_cons, hmap]
        split_ifs <;> omega
      · have hx : ¬((key x == key c) = true) := by
          intro hkey
          apply h.1
          rw [beq_iff_eq.mp hkey]
          exact List.mem_map_of_mem key hc2
        have hge : (if q c then 1 else 0) ≤ xs.countP q := by
          rcases hq : q c
          · simp
          · simpa [hq] using List.countP_pos_iff.mpr ⟨c, hc2, hq⟩
        simp only [List.map_cons, if_neg hx, List.countP_cons, ih h.2 hc2]
        split_ifs at hge ⊢ <;> omega

/-! ### Write-order observations (for the two-write consistency rule) -/

def Write.isDonationStateWrite : Write → Bool
  | .updateDonationStatus _ _ => true
  | .updateDonationFinal _ _ => true
  | .updateDonationBoth _ _ _ => true
  | _ => false

def Write.isClaimRowWrite : Write → Bool
  | .insertClaim _ _ _ => true
  | .updateClaimsByDonation _ _ _ => true
  | .updateClaimById _ _ => true
  | _ => false

/-- Whether, in a handler's write sequence, the first donation
state-column update precedes the first claim-row write (vacuously true
when either is absent). -/
def donationWriteFirst (ws : List Write) : Bool :=
  match ws.findIdx? Write.isDonationStateWrite, ws.findIdx? Write.isClaimRowWrite with
  | some i, some j => i < j
  | _, _ => true

/-- Number of claim rows matching a `donation_id` + `status` filter —
the rows an `updateClaimsByDonation` write would affect. -/
def matchingClaims (db : DB) (did : Nat) (s : CStatus) : Nat :=
  db.claims.countP fun c => c.donation_id == did && c.status == s

/-! ### Sweep loops with row-level failures

The body of each sweep's `for` loop issues row-store calls with no
per-row try/except (only the e-mail sends are wrapped); an exception
raised while processing a row therefore propagates to the handler's
outer try/except, aborting the loop: writes already issued persist, the
remaining candidates are not processed, and the handler returns 500.
`rowRaises` tells which candidate rows' processing raises; failure is
modelled at row granularity. -/

def autoExpireGo (rowRaises : Nat → Bool) : List Donation → DB → Except DB DB
  | [], db => Except.ok db
  | d :: rest, db =>
      if rowRaises d.id then Except.error db
      else autoExpireGo rowRaises rest
        (applyWrite db (Write.updateDonationFinal d.id (some FinalState.expired)))

/-- Sweep `auto_expire_donations` with per-row failure behaviour
(`Except.error s` = the loop aborted with the store left at `s`). -/
def auto_expire_exc (rowRaises : Nat → Bool) (today : Int) (db : DB) : Except DB DB :=
  autoExpireGo rowRaises (expireCandidates today db) db

def autoCancelGo (rowRaises : Nat → Bool) : List Claim → DB → Except DB DB
  | [], db => Except.ok db
  | c :: rest, db =>
      if rowRaises c.id then Except.error db
      else autoCancelGo rowRaises rest (autoCancelRow db c)

/-- Sweep `auto_cancel_claimed_donations` with per-row failure behaviour. -/
def auto_cancel_exc (rowRaises : Nat → Bool) (now : Int) (db : DB) : Except DB DB :=
  autoCancelGo rowRaises (cancelCandidates now db) db

/-- Keyed `find?` commutes with a key-preserving map. -/
theorem find_map_key {α : Type} (key : α → Nat) (g : α → α)
    (hg : ∀ x, key (g x) = key x) (l : List α) (i : Nat) :
    ((l.map g).find? fun x => key x == i) = (l.find? fun x => key x == i).map g := by
  induction l with
  | nil => rfl
  | cons x xs ih =>
      simp only [List.map_cons]
      by_cases hx : (key x == i) = true
      · rw [@List.find?_cons_of_pos _ (fun y => key y == i) (g x) (xs.map g)
              (by simpa [hg] using hx),
            @List.find?_cons_of_pos _ (fun y => key y == i) x xs hx]
        rfl
      · rw [@List.find?_cons_of_neg _ (fun y => key y == i) (g x) (xs.map g)
              (by simpa [hg] using hx),
            @List.find?_cons_of_neg _ (fun y => key y == i) x xs hx]
        exact ih

/-- Appending a strictly larger fresh key keeps a key list nodup. -/
theorem nodup_append_fresh {l : List Nat} (h : l.Nodup) {n : Nat}
    (hn : ∀ a ∈ l, a < n) : (l ++ [n]).Nodup := by
  rw [List.nodup_append]
  refine ⟨h, List.nodup_singleton n, ?_⟩
  intro a ha hb
  rw [List.mem_singleton] at hb
  exact absurd (hb ▸ hn a ha) (lt_irrefl n)

/-- A keyed pointwise update keeps the key list unchanged. -/
theorem map_key_update {α : Type} (key : α → Nat) (p : α → Bool) (f : α → α)
    (hf : ∀ x, key (f x) = key x) (l : List α) :
    ((l.map fun x => if p x then f x else x).map key) = l.map key := by
  rw [List.map_map]
  apply List.map_congr_left
  intro a _
  by_cases h : p a <;> simp [h, hf]

/-- An element not matched by a pointwise update survives it unchanged. -/
theorem mem_update_of_ne {α : Type} {p : α → Bool} {f : α → α} {l : List α} {a : α}
    (ha : a ∈ l) (hp : p a = false) :
    a ∈ l.map fun x => if p x then f x else x := by
  have h : (fun x => if p x then f x else x) a = a := by simp [hp]
  exact h ▸ List.mem_map_of_mem _ ha

/-! ### How each write shape moves `claimedCount` -/

/-- Cancelling/completing every `claimed` row of one donation zeroes its
count and leaves every other donation's count unchanged. -/
theorem claimedCount_updateByDonation (db : DB) (did : Nat) (new : CStatus)
    (hnew : new ≠ CStatus.claimed) (x : Nat) :
    claimedCount (applyWrite db (Write.updateClaimsByDonation did CStatus.claimed new)) x
      = if x = did then 0 else claimedCount db x := by
  simp only [claimedCount, applyWrite, List.countP_map]
  by_cases hx : x = did
  · subst hx
    rw [if_pos rfl, List.countP_eq_zero]
    intro c _
    by_cases hc : c.donation_id = x ∧ c.status = CStatus.claimed
    · have hcb : (c.donation_id == x && c.status == CStatus.claimed) = true := by
        simp [hc.1, hc.2]
      simp only [Function.comp, if_pos hcb]
      simp [hnew]
    · have hcb : ¬((c.donation_id == x && c.status == CStatus.claimed) = true) := by
        simpa using hc
      simp only [Function.comp, if_neg hcb]
      simpa using hc
  · rw [if_neg hx]
    apply List.countP_congr
    intro c _
    by_cases hc : c.donation_id = did ∧ c.status = CStatus.claimed
    · have hcb : (c.donation_id == did && c.status == CStatus.claimed) = true := by
        simp [hc.1, hc.2]
      simp only [Function.comp, if_pos hcb]
      have hne : ¬(c.donation_id = x) := fun hh => hx (hh ▸ hc.1)
      simp [hne, hc.1, Ne.symm hx]
    · have hcb : ¬((c.donation_id == did && c.status == CStatus.claimed) = true) := by
        simpa using hc
      simp only [Function.comp, if_neg hcb]

/-- Inserting a fresh `claimed` row bumps exactly its donation's count. -/
theorem claimedCount_insertClaim (db : DB) (did nid : Nat) (t : Int) (x : Nat) :
    claimedCount (applyWrite db (Write.insertClaim did nid t)) x
      = claimedCount db x + (if did = x then 1 else 0) := by
  simp only [claimedCount, applyWrite, List.countP_append, List.countP_cons, List.countP_nil]
  by_cases h : did = x <;> simp [h]

/-- Cancelling/completing one claim row by id (the unique row with that
id) decrements its donation's count when the row was `claimed`. -/
theorem claimedCount_updateById (db : DB) {c0 : Claim} (hc0 : c0 ∈ db.claims)
    (hnd : (db.claims.map Claim.id).Nodup) (new : CStatus)
    (hnew : new ≠ CStatus.claimed) (x : Nat) :
    claimedCount (applyWrite db (Write.updateClaimById c0.id new)) x
      = claimedCount db x -
          (if c0.donation_id = x ∧ c0.status = CStatus.claimed then 1 else 0) := by
  simp only [claimedCount, applyWrite]
  have h := countP_update_key Claim.id hnd hc0 (fun c => { c with status := new })
      (fun c => c.donation_id == x && c.status == CStatus.claimed)
  simp only [Claim.id] at h
  rw [h]
  have h2 : (({ c0 with status := new } : Claim).donation_id == x &&
      ({ c0 with status := new } : Claim).status == CStatus.claimed) = false := by
    simp [hnew]
  rw [h2]
  by_cases h4 : c0.donation_id = x
  · by_cases h5 : c0.status = CStatus.claimed <;> simp [h4, h5]
  · simp [h4]

/-- Donation-table writes leave `claimedCount` untouched. -/
theorem claimedCount_donationWrite (db : DB) (w : Write)
    (hw : w.isClaimRowWrite = false) (x : Nat) :
    claimedCount (applyWrite db w) x = claimedCount db x := by
  cases w <;> simp_all [Write.isClaimRowWrite, applyWrite, claimedCount]

/-! ### Invariant preservation -/

theorem findDonation_some {db : DB} {i : Nat} {d : Donation}
    (h : findDonation db i = some d) : d ∈ db.donations ∧ d.id = i :=
  ⟨List.mem_of_find?_eq_some h, by simpa using List.find?_some h⟩

/-- A pointwise donation update at one id preserves `Inv`, provided the
updated row still matches its claim count and respects the donor lock. -/
theorem inv_mapDonations {db : DB} (hinv : Inv db) (i : Nat) (f : Donation → Donation)
    (hid : ∀ x, (f x).id = x.id)
    (hcond : ∀ d ∈ db.donations, d.id = i →
        claimedCount db d.id = (if (f d).status = DStatus.claimed then 1 else 0) ∧
        ((f d).final_state = some FinalState.cancelled_by_donor →
          (f d).status = DStatus.available)) :
    Inv { db with donations := db.donations.map fun x => if x.id == i then f x else x } := by
  have hkey : ∀ x : Donation, ((if x.id == i then f x else x) : Donation).id = x.id := by
    intro x
    by_cases h : (x.id == i) = true <;> simp [h, hid]
  have hmapid : ((db.donations.map fun x => if x.id == i then f x else x).map Donation.id)
      = db.donations.map Donation.id :=
    map_key_update Donation.id _ f hid db.donations
  constructor
  case dnodup => rw [hmapid]; exact hinv.dnodup
  case cnodup => exact hinv.cnodup
  case dbound =>
    intro d' hd'
    obtain ⟨d0, hd0, hde⟩ := List.mem_map.mp hd'
    rw [← hde, hkey d0]
    exact hinv.dbound d0 hd0
  case cbound => exact hinv.cbound
  case cref => exact hinv.cref
  case one =>
    intro d' hd'
    obtain ⟨d0, hd0, hde⟩ := List.mem_map.mp hd'
    by_cases hc : (d0.id == i) = true
    · have hc' : d0.id = i := beq_iff_eq.mp hc
      rw [if_pos hc] at hde
      have hcount := (hcond d0 hd0 hc').1
      rw [← hde]
      show claimedCount db (f d0).id = _
      rw [hid d0, ← hcount]
    · rw [if_neg hc] at hde
      rw [← hde]
      exact hinv.one d0 hd0
  case locked =>
    intro d' hd' hfs
    obtain ⟨d0, hd0, hde⟩ := List.mem_map.mp hd'
    by_cases hc : (d0.id == i) = true
    · rw [if_pos hc] at hde
      exact hde ▸ (hcond d0 hd0 (beq_iff_eq.mp hc)).2 (hde ▸ hfs)
    · rw [if_neg hc] at hde
      exact hde ▸ hinv.locked d0 hd0 (hde ▸ hfs)
  case cexists =>
    intro c hc hcs
    obtain ⟨d0, hd0, hde⟩ := hinv.cexists c hc hcs
    refine ⟨if d0.id == i then f d0 else d0, List.mem_map_of_mem _ hd0, ?_⟩
    rw [hkey d0]
    exact hde

theorem inv_insertDonation (donor : Nat) (exp q : Int) (lat lng : Option ℚ)
    {db : DB} (hinv : Inv db) :
    Inv (applyWrite db (Write.insertDonation donor exp q lat lng)) := by
  constructor
  case dnodup =>
    simp only [applyWrite, List.map_append, List.map_cons, List.map_nil]
    apply nodup_append_fresh hinv.dnodup
    intro a ha
    obtain ⟨d0, hd0, rfl⟩ := List.mem_map.mp ha
    exact hinv.dbound d0 hd0
  case cnodup => exact hinv.cnodup
  case dbound =>
    intro d' hd'
    simp only [applyWrite] at hd' ⊢
    rcases List.mem_append.mp hd' with h | h
    · exact Nat.lt_succ_of_lt (hinv.dbound d' h)
    · rw [List.mem_singleton] at h
      rw [h]
      exact Nat.lt_succ_self _
  case cbound => exact hinv.cbound
  case cref =>
    intro c hc
    exact Nat.lt_succ_of_lt (hinv.cref c hc)
  case one =>
    intro d' hd'
    simp only [applyWrite] at hd'
    rcases List.mem_append.mp hd' with h | h
    · exact hinv.one d' h
    · rw [List.mem_singleton] at h
      rw [h]
      show claimedCount db db.nextDonationId = _
      simp only [if_neg (by simp : ¬(DStatus.available = DStatus.claimed))]
      rw [claimedCount, List.countP_eq_zero]
      intro c hc hq
      simp only [Bool.and_eq_true, beq_iff_eq] at hq
      exact absurd (hq.1 ▸ hinv.cref c hc) (lt_irrefl _)
  case locked =>
    intro d' hd' hfs
    simp only [applyWrite] at hd'
    rcases List.mem_append.mp hd' with h | h
    · exact hinv.locked d' h hfs
    · rw [List.mem_singleton] at h
      rw [h] at hfs
      cases hfs
  case cexists =>
    intro c hc hcs
    obtain ⟨d0, hd0, hde⟩ := hinv.cexists c hc hcs
    exact ⟨d0, List.mem_append_left _ hd0, hde⟩

theorem inv_add (t : Int) (r : AddReq) {db : DB} (hinv : Inv db) :
    Inv (applyWrites db (add_donation t r db).2) := by
  unfold add_donation
  split
  · exact hinv
  · split
    · exact hinv
    · split
      · exact hinv
      · split
        · exact hinv
        · split
          · exact hinv
          · split
            · split
              · exact hinv
              · exact inv_insertDonation _ _ _ _ _ hinv
            · exact inv_insertDonation _ _ _ _ _ hinv

theorem inv_edit (t : Int) (i : Nat) (r : UpdateReq) {db : DB} (hinv : Inv db) :
    Inv (applyWrites db (update_donation t i r db).2) := by
  unfold update_donation
  split
  · exact hinv
  · split
    · exact hinv
    · split
      · exact hinv
      · split
        · exact hinv
        · split
          · exact hinv
          · split
            · exact hinv
            · show Inv (applyWrite db (Write.updateDonationFields i r.quantity
                  r.expiry_date r.pickup_lat r.pickup_lng))
              apply inv_mapDonations hinv i
                (fun d => { d with
                    quantity := r.quantity.getD d.quantity,
                    expiry_date := r.expiry_date.getD d.expiry_date,
                    pickup_lat := r.pickup_lat.getD d.pickup_lat,
                    pickup_lng := r.pickup_lng.getD d.pickup_lng })
              · intro x
                rfl
              · intro d0 hd0 _
                exact ⟨hinv.one d0 hd0, hinv.locked d0 hd0⟩

theorem inv_claim_success {db : DB} (hinv : Inv db) {i : Nat} (g : Nat) (n : Int)
    {d : Donation} (hfd : findDonation db i = some d) (hfs : d.final_state = none)
    (hst : d.status = DStatus.available) :
    Inv (applyWrite (applyWrite db (Write.insertClaim i g n))
          (Write.updateDonationStatus i DStatus.claimed)) := by
  obtain ⟨hd, hdi⟩ := findDonation_some hfd
  have hgid : ∀ x : Donation,
      ((if x.id == i then { x with status := DStatus.claimed } else x) : Donation).id
        = x.id := by
    intro x
    by_cases h : (x.id == i) = true <;> simp [h]
  constructor
  case dnodup =>
    simp only [applyWrite]
    rw [map_key_update Donation.id (fun x => x.id == i)
      (fun x => { x with status := DStatus.claimed }) (fun x => rfl)]
    exact hinv.dnodup
  case cnodup =>
    simp only [applyWrite, List.map_append, List.map_cons, List.map_nil]
    apply nodup_append_fresh hinv.cnodup
    intro a ha
    obtain ⟨c0, hc0, rfl⟩ := List.mem_map.mp ha
    exact hinv.cbound c0 hc0
  case dbound =>
    intro d' hd'
    simp only [applyWrite] at hd' ⊢
    obtain ⟨d0, hd0, hde⟩ := List.mem_map.mp hd'
    rw [← hde, hgid d0]
    exact hinv.dbound d0 hd0
  case cbound =>
    intro c hc
    simp only [applyWrite] at hc ⊢
    rcases List.mem_append.mp hc with h | h
    · exact Nat.lt_succ_of_lt (hinv.cbound c h)
    · rw [List.mem_singleton] at h
      rw [h]
      exact Nat.lt_succ_self _
  case cref =>
    intro c hc
    simp only [applyWrite] at hc ⊢
    rcases List.mem_append.mp hc with h | h
    · exact hinv.cref c h
    · rw [List.mem_singleton] at h
      rw [h]
      show i < db.nextDonationId
      exact hdi ▸ hinv.dbound d hd
  case one =>
    intro d' hd'
    rw [claimedCount_donationWrite (applyWrite db (Write.insertClaim i g n))
      (Write.updateDonationStatus i DStatus.claimed) rfl, claimedCount_insertClaim]
    simp only [applyWrite] at hd'
    obtain ⟨d0, hd0, hde⟩ := List.mem_map.mp hd'
    by_cases hc : (d0.id == i) = true
    · have hc' : d0.id = i := beq_iff_eq.mp hc
      have hdd : d0 = d := key_nodup_eq Donation.id hinv.dnodup hd0 hd (hc'.trans hdi.symm)
      rw [if_pos hc] at hde
      rw [← hde]
      have h0 : claimedCount db
          (({ d0 with status := DStatus.claimed } : Donation).id) = 0 := by
        show claimedCount db d0.id = 0
        rw [hdd, hinv.one d hd, if_neg (by rw [hst]; simp)]
      rw [h0]
      have hii : i = ({ d0 with status := DStatus.claimed } : Donation).id := hc'.symm
      rw [if_pos hii, if_pos rfl]
    · rw [if_neg hc] at hde
      rw [← hde]
      rw [if_neg (fun hh => (by simp [← hh] at hc : False)), Nat.add_zero]
      exact hinv.one d0 hd0
  case locked =>
    intro d' hd' hfs'
    simp only [applyWrite] at hd'
    obtain ⟨d0, hd0, hde⟩ := List.mem_map.mp hd'
    by_cases hc : (d0.id == i) = true
    · have hdd : d0 = d :=
        key_nodup_eq Donation.id hinv.dnodup hd0 hd ((beq_iff_eq.mp hc).trans hdi.symm)
      rw [if_pos hc] at hde
      rw [← hde] at hfs'
      rw [hdd] at hfs'
      simp only [hfs] at hfs'
      cases hfs'
    · rw [if_neg hc] at hde
      rw [← hde] at hfs' ⊢
      exact hinv.locked d0 hd0 hfs'
  case cexists =>
    intro c hc hcs
    simp only [applyWrite] at hc ⊢
    rcases List.mem_append.mp hc with h | h
    · obtain ⟨d0, hd0, hde⟩ := hinv.cexists c h hcs
      refine ⟨if d0.id == i then { d0 with status := DStatus.claimed } else d0,
        List.mem_map_of_mem _ hd0, ?_⟩
      rw [hgid d0]
      exact hde
    · rw [List.mem_singleton] at h
      refine ⟨if d.id == i then { d with status := DStatus.claimed } else d,
        List.mem_map_of_mem _ hd, ?_⟩
      rw [hgid d, h, hdi]

theorem inv_claim (t n : Int) (i g : Nat) {db : DB} (hinv : Inv db) :
    Inv (applyWrites db (claim_donation t n i g db).2) := by
  unfold claim_donation
  split
  · exact hinv
  next d hfd =>
    split
    · exact hinv
    next h1 =>
      split
      · exact hinv
      next h2 =>
        split
        · exact hinv
        next _ =>
          exact inv_claim_success hinv g n hfd (not_not.mp h1) (not_not.mp h2)

theorem inv_cancel_success {db : DB} (hinv : Inv db) {i : Nat} {d : Donation}
    (hfd : findDonation db i = some d) :
    Inv (applyWrite
          (applyWrite db (Write.updateClaimsByDonation i CStatus.claimed CStatus.cancelled))
          (Write.updateDonationBoth i DStatus.available
            (some FinalState.cancelled_by_donor))) := by
  obtain ⟨hd, hdi⟩ := findDonation_some hfd
  have hgid : ∀ x : Donation,
      ((if x.id == i then
          { x with status := DStatus.available,
                   final_state := some FinalState.cancelled_by_donor } else x) : Donation).id
        = x.id := by
    intro x
    by_cases h : (x.id == i) = true <;> simp [h]
  have hcid : ∀ x : Claim,
      ((if x.donation_id == i && x.status == CStatus.claimed then
          { x with status := CStatus.cancelled } else x) : Claim).id = x.id := by
    intro x
    by_cases h : (x.donation_id == i && x.status == CStatus.claimed) = true <;> simp [h]
  have hcdid : ∀ x : Claim,
      ((if x.donation_id == i && x.status == CStatus.claimed then
          { x with status := CStatus.cancelled } else x) : Claim).donation_id
        = x.donation_id := by
    intro x
    by_cases h : (x.donation_id == i && x.status == CStatus.claimed) = true <;> simp [h]
  constructor
  case dnodup =>
    simp only [applyWrite]
    rw [map_key_update Donation.id (fun x => x.id == i)
      (fun x => { x with status := DStatus.available,
                         final_state := some FinalState.cancelled_by_donor })
      (fun x => rfl)]
    exact hinv.dnodup
  case cnodup =>
    simp only [applyWrite]
    rw [map_key_update Claim.id
      (fun x => x.donation_id == i && x.status == CStatus.claimed)
      (fun x => { x with status := CStatus.cancelled }) (fun x => rfl)]
    exact hinv.cnodup
  case dbound =>
    intro d' hd'
    simp only [applyWrite] at hd' ⊢
    obtain ⟨d0, hd0, hde⟩ := List.mem_map.mp hd'
    rw [← hde, hgid d0]
    exact hinv.dbound d0 hd0
  case cbound =>
    intro c hc
    simp only [applyWrite] at hc ⊢
    obtain ⟨c0, hc0, hce⟩ := List.mem_map.mp hc
    rw [← hce, hcid c0]
    exact hinv.cbound c0 hc0
  case cref =>
    intro c hc
    simp only [applyWrite] at hc ⊢
    obtain ⟨c0, hc0, hce⟩ := List.mem_map.mp hc
    rw [← hce, hcdid c0]
    exact hinv.cref c0 hc0
  case one =>
    intro d' hd'
    rw [claimedCount_donationWrite
      (applyWrite db (Write.updateClaimsByDonation i CStatus.claimed CStatus.cancelled))
      (Write.updateDonationBoth i DStatus.available (some FinalState.cancelled_by_donor))
      rfl,
      claimedCount_updateByDonation db i CStatus.cancelled (by simp)]
    simp only [applyWrite] at hd'
    obtain ⟨d0, hd0, hde⟩ := List.mem_map.mp hd'
    by_cases hc : (d0.id == i) = true
    · rw [if_pos hc] at hde
      have hid' : d'.id = i := by
        rw [← hde]
        exact beq_iff_eq.mp hc
      have hst' : d'.status = DStatus.available := by rw [← hde]
      rw [if_pos hid', hst']
      simp
    · rw [if_neg hc] at hde
      have hid' : d'.id = d0.id := by rw [← hde]
      rw [hid', if_neg (by simpa using hc), ← hde]
      exact hinv.one d0 hd0
  case locked =>
    intro d' hd' hfs'
    simp only [applyWrite] at hd'
    obtain ⟨d0, hd0, hde⟩ := List.mem_map.mp hd'
    by_cases hc : (d0.id == i) = true
    · rw [if_pos hc] at hde
      rw [← hde]
    · rw [if_neg hc] at hde
      rw [← hde] at hfs' ⊢
      exact hinv.locked d0 hd0 hfs'
  case cexists =>
    intro c hc hcs
    simp only [applyWrite] at hc ⊢
    obtain ⟨c0, hc0, hce⟩ := List.mem_map.mp hc
    have hcc : ¬((c0.donation_id == i && c0.status == CStatus.claimed) = true) := by
      intro hcond
      rw [if_pos hcond] at hce
      rw [← hce] at hcs
      cases hcs
    rw [if_neg hcc] at hce
    obtain ⟨d0, hd0, hde⟩ := hinv.cexists c0 hc0 (hce ▸ hcs)
    refine ⟨if d0.id == i then
        { d0 with status := DStatus.available,
                  final_state := some FinalState.cancelled_by_donor } else d0,
      List.mem_map_of_mem _ hd0, ?_⟩
    rw [hgid d0, ← hce]
    exact hde

theorem inv_cancel (i : Nat) {db : DB} (hinv : Inv db) :
    Inv (applyWrites db (cancel_donation i db).2) := by
  unfold cancel_donation
  split
  · exact hinv
  next d hfd =>
    split
    · exact hinv
    · split
      · exact hinv
      · exact inv_cancel_success hinv hfd

/-- Cancelling one active claim by id and restoring its donation to
(`available`, any final_state) preserves the invariant.  This is the
write pair shared by `ngo_cancel_claim` and the auto-cancel loop body. -/
theorem inv_cancelClaimRow {db : DB} (hinv : Inv db) {i : Nat} {c : Claim}
    (hc : c ∈ db.claims) (hcd : c.donation_id = i) (hcs : c.status = CStatus.claimed)
    (fs : Option FinalState) :
    Inv (applyWrite (applyWrite db (Write.updateClaimById c.id CStatus.cancelled))
          (Write.updateDonationBoth i DStatus.available fs)) := by
  have hgid : ∀ x : Donation,
      ((if x.id == i then
          { x with status := DStatus.available, final_state := fs } else x) : Donation).id
        = x.id := by
    intro x
    by_cases h : (x.id == i) = true <;> simp [h]
  have hcid : ∀ x : Claim,
      ((if x.id == c.id then { x with status := CStatus.cancelled } else x) : Claim).id
        = x.id := by
    intro x
    by_cases h : (x.id == c.id) = true <;> simp [h]
  have hcdid : ∀ x : Claim,
      ((if x.id == c.id then
          { x with status := CStatus.cancelled } else x) : Claim).donation_id
        = x.donation_id := by
    intro x
    by_cases h : (x.id == c.id) = true <;> simp [h]
  constructor
  case dnodup =>
    simp only [applyWrite]
    rw [map_key_update Donation.id (fun x => x.id == i)
      (fun x => { x with status := DStatus.available, final_state := fs })
      (fun x => rfl)]
    exact hinv.dnodup
  case cnodup =>
    simp only [applyWrite]
    rw [map_key_update Claim.id (fun x => x.id == c.id)
      (fun x => { x with status := CStatus.cancelled }) (fun x => rfl)]
    exact hinv.cnodup
  case dbound =>
    intro d' hd'
    simp only [applyWrite] at hd' ⊢
    obtain ⟨d0, hd0, hde⟩ := List.mem_map.mp hd'
    rw [← hde, hgid d0]
    exact hinv.dbound d0 hd0
  case cbound =>
    intro c' hc'
    simp only [applyWrite] at hc' ⊢
    obtain ⟨c0, hc0, hce⟩ := List.mem_map.mp hc'
    rw [← hce, hcid c0]
    exact hinv.cbound c0 hc0
  case cref =>
    intro c' hc'
    simp only [applyWrite] at hc' ⊢
    obtain ⟨c0, hc0, hce⟩ := List.mem_map.mp hc'
    rw [← hce, hcdid c0]
    exact hinv.cref c0 hc0
  case one =>
    intro d' hd'
    rw [claimedCount_donationWrite
      (applyWrite db (Write.updateClaimById c.id CStatus.cancelled))
      (Write.updateDonationBoth i DStatus.available fs) rfl,
      claimedCount_updateById db hc hinv.cnodup CStatus.cancelled (by simp)]
    simp only [applyWrite] at hd'
    obtain ⟨d0, hd0, hde⟩ := List.mem_map.mp hd'
    by_cases hcc : (d0.id == i) = true
    · have hid' : d'.id = i := by
        rw [← hde, if_pos hcc]
        exact beq_iff_eq.mp hcc
      have hst' : d'.status = DStatus.available := by rw [← hde, if_pos hcc]
      have hone : claimedCount db i = 1 := by
        have h1 : 0 < claimedCount db i := by
          apply List.countP_pos_iff.mpr
          exact ⟨c, hc, by simp [hcd, hcs]⟩
        have h2 := hinv.one d0 hd0
        rw [beq_iff_eq.mp hcc] at h2
        rcases hss : d0.status with _ | _ | _ <;> rw [hss] at h2 <;> simp at h2 <;> omega
      rw [hid', hone, if_pos ⟨hcd, hcs⟩, hst']
      simp
    · have hid' : d'.id = d0.id := by rw [← hde, if_neg hcc]
      have hne : ¬(c.donation_id = d'.id ∧ c.status = CStatus.claimed) := by
        intro hh
        rw [hid'] at hh
        exact hcc (by simp [← hcd, hh.1])
      rw [if_neg hne, Nat.sub_zero, hid', ← hde, if_neg hcc]
      exact hinv.one d0 hd0
  case locked =>
    intro d' hd' hfs'
    simp only [applyWrite] at hd'
    obtain ⟨d0, hd0, hde⟩ := List.mem_map.mp hd'
    by_cases hcc : (d0.id == i) = true
    · rw [← hde, if_pos hcc]
    · rw [if_neg hcc] at hde
      rw [← hde] at hfs' ⊢
      exact hinv.locked d0 hd0 hfs'
  case cexists =>
    intro c' hc' hcs'
    simp only [applyWrite] at hc' ⊢
    obtain ⟨c0, hc0, hce⟩ := List.mem_map.mp hc'
    have hne : ¬((c0.id == c.id) = true) := by
      intro hcond
      rw [if_pos hcond] at hce
      rw [← hce] at hcs'
      cases hcs'
    rw [if_neg hne] at hce
    obtain ⟨d0, hd0, hde⟩ := hinv.cexists c0 hc0 (hce ▸ hcs')
    refine ⟨if d0.id == i then
        { d0 with status := DStatus.available, final_state := fs } else d0,
      List.mem_map_of_mem _ hd0, ?_⟩
    rw [hgid d0, ← hce]
    exact hde

theorem inv_ngoCancel (i g : Nat) {db : DB} (hinv : Inv db) :
    Inv (applyWrites db (ngo_cancel_claim i g db).2) := by
  unfold ngo_cancel_claim
  split
  · exact hinv
  next c hfc =>
    have hc : c ∈ db.claims := List.mem_of_find?_eq_some hfc
    have hp := List.find?_some hfc
    simp only [Bool.and_eq_true, beq_iff_eq] at hp
    exact inv_cancelClaimRow hinv hc hp.1.1 hp.2 (some FinalState.cancelled_by_ngo)

theorem inv_autoCancelRow {db : DB} (hinv : Inv db) {c : Claim}
    (hc : c ∈ db.claims) (hcs : c.status = CStatus.claimed) :
    Inv (autoCancelRow db c) := by
  unfold autoCancelRow
  split
  · exact hinv
  next d _ =>
    split
    · exact hinv
    · exact inv_cancelClaimRow hinv hc rfl hcs none

theorem inv_pickup_success {db : DB} (hinv : Inv db) {i : Nat} {d : Donation}
    (hfd : findDonation db i = some d) (hfs : d.final_state = none) :
    Inv (applyWrite (applyWrite db (Write.updateDonationStatus i DStatus.completed))
          (Write.updateClaimsByDonation i CStatus.claimed CStatus.completed)) := by
  obtain ⟨hd, hdi⟩ := findDonation_some hfd
  have hgid : ∀ x : Donation,
      ((if x.id == i then { x with status := DStatus.completed } else x) : Donation).id
        = x.id := by
    intro x
    by_cases h : (x.id == i) = true <;> simp [h]
  have hcid : ∀ x : Claim,
      ((if x.donation_id == i && x.status == CStatus.claimed then
          { x with status := CStatus.completed } else x) : Claim).id = x.id := by
    intro x
    by_cases h : (x.donation_id == i && x.status == CStatus.claimed) = true <;> simp [h]
  have hcdid : ∀ x : Claim,
      ((if x.donation_id == i && x.status == CStatus.claimed then
          { x with status := CStatus.completed } else x) : Claim).donation_id
        = x.donation_id := by
    intro x
    by_cases h : (x.donation_id == i && x.status == CStatus.claimed) = true <;> simp [h]
  constructor
  case dnodup =>
    simp only [applyWrite]
    rw [map_key_update Donation.id (fun x => x.id == i)
      (fun x => { x with status := DStatus.completed }) (fun x => rfl)]
    exact hinv.dnodup
  case cnodup =>
    simp only [applyWrite]
    rw [map_key_update Claim.id
      (fun x => x.donation_id == i && x.status == CStatus.claimed)
      (fun x => { x with status := CStatus.completed }) (fun x => rfl)]
    exact hinv.cnodup
  case dbound =>
    intro d' hd'
    simp only [applyWrite] at hd' ⊢
    obtain ⟨d0, hd0, hde⟩ := List.mem_map.mp hd'
    rw [← hde, hgid d0]
    exact hinv.dbound d0 hd0
  case cbound =>
    intro c hc
    simp only [applyWrite] at hc ⊢
    obtain ⟨c0, hc0, hce⟩ := List.mem_map.mp hc
    rw [← hce, hcid c0]
    exact hinv.cbound c0 hc0
  case cref =>
    intro c hc
    simp only [applyWrite] at hc ⊢
    obtain ⟨c0, hc0, hce⟩ := List.mem_map.mp hc
    rw [← hce, hcdid c0]
    exact hinv.cref c0 hc0
  case one =>
    intro d' hd'
    have e1 : (applyWrite (applyWrite db (Write.updateDonationStatus i DStatus.completed))
        (Write.updateClaimsByDonation i CStatus.claimed CStatus.completed))
        = applyWrite (applyWrite db (Write.updateDonationStatus i DStatus.completed))
            (Write.updateClaimsByDonation i CStatus.claimed CStatus.completed) := rfl
    rw [claimedCount_updateByDonation
      (applyWrite db (Write.updateDonationStatus i DStatus.completed)) i
      CStatus.completed (by simp),
      claimedCount_donationWrite db (Write.updateDonationStatus i DStatus.completed) rfl]
    simp only [applyWrite] at hd'
    obtain ⟨d0, hd0, hde⟩ := List.mem_map.mp hd'
    by_cases hc : (d0.id == i) = true
    · have hid' : d'.id = i := by
        rw [← hde, if_pos hc]
        exact beq_iff_eq.mp hc
      have hst' : d'.status = DStatus.completed := by rw [← hde, if_pos hc]
      rw [if_pos hid', hst']
      simp
    · have hid' : d'.id = d0.id := by rw [← hde, if_neg hc]
      rw [hid', if_neg (by simpa using hc), ← hde, if_neg hc]
      exact hinv.one d0 hd0
  case locked =>
    intro d' hd' hfs'
    simp only [applyWrite] at hd'
    obtain ⟨d0, hd0, hde⟩ := List.mem_map.mp hd'
    by_cases hc : (d0.id == i) = true
    · have hdd : d0 = d :=
        key_nodup_eq Donation.id hinv.dnodup hd0 hd ((beq_iff_eq.mp hc).trans hdi.symm)
      rw [← hde, if_pos hc] at hfs'
      rw [hdd] at hfs'
      simp only [hfs] at hfs'
      cases hfs'
    · rw [if_neg hc] at hde
      rw [← hde] at hfs' ⊢
      exact hinv.locked d0 hd0 hfs'
  case cexists =>
    intro c' hc' hcs'
    simp only [applyWrite] at hc' ⊢
    obtain ⟨c0, hc0, hce⟩ := List.mem_map.mp hc'
    have hne : ¬((c0.donation_id == i && c0.status == CStatus.claimed) = true) := by
      intro hcond
      rw [if_pos hcond] at hce
      rw [← hce] at hcs'
      cases hcs'
    rw [if_neg hne] at hce
    obtain ⟨d0, hd0, hde⟩ := hinv.cexists c0 hc0 (hce ▸ hcs')
    refine ⟨if d0.id == i then { d0 with status := DStatus.completed } else d0,
      List.mem_map_of_mem _ hd0, ?_⟩
    rw [hgid d0, ← hce]
    exact hde

theorem inv_pickup (i : Nat) {db : DB} (hinv : Inv db) :
    Inv (applyWrites db (confirm_pickup i db).2) := by
  unfold confirm_pickup
  split
  · exact hinv
  next d hfd =>
    split
    · exact hinv
    next h1 =>
      split
      · exact hinv
      · split
        · exact hinv
        · exact inv_pickup_success hinv hfd (not_not.mp h1)

/-- Stamping `final_state = expired` on any one donation row preserves
the invariant. -/
theorem inv_expireWrite (i : Nat) {db : DB} (hinv : Inv db) :
    Inv (applyWrite db (Write.updateDonationFinal i (some FinalState.expired))) := by
  show Inv { db with donations := db.donations.map fun x =>
    if x.id == i then { x with final_state := some FinalState.expired } else x }
  apply inv_mapDonations hinv i (fun x => { x with final_state := some FinalState.expired })
  · intro x
    rfl
  · intro d0 hd0 _
    refine ⟨hinv.one d0 hd0, ?_⟩
    intro hfs
    cases hfs

theorem inv_sweepExpire (t : Int) {db : DB} (hinv : Inv db) :
    Inv (applyWrites db (auto_expire_donations t db)) := by
  unfold auto_expire_donations
  generalize expireCandidates t db = cands
  induction cands generalizing db with
  | nil => exact hinv
  | cons d rest ih =>
      simp only [List.map_cons]
      show Inv (applyWrites
        (applyWrite db (Write.updateDonationFinal d.id (some FinalState.expired)))
        (rest.map fun d => Write.updateDonationFinal d.id (some FinalState.expired)))
      exact ih (inv_expireWrite d.id hinv)

theorem autoCancelRow_mem_claims {db : DB} {c c2 : Claim} (hc2 : c2 ∈ db.claims)
    (hne : c2.id ≠ c.id) : c2 ∈ (autoCancelRow db c).claims := by
  unfold autoCancelRow
  split
  · exact hc2
  · split
    · exact hc2
    · simp only [applyWrites, List.foldl, applyWrite]
      apply mem_update_of_ne hc2
      simpa using hne

theorem inv_foldCancel : ∀ (cs : List Claim) (db : DB), Inv db →
    (∀ c ∈ cs, c ∈ db.claims ∧ c.status = CStatus.claimed) →
    cs.Pairwise (fun a b => a.id ≠ b.id) →
    Inv (cs.foldl autoCancelRow db) := by
  intro cs
  induction cs with
  | nil =>
      intro db hinv _ _
      exact hinv
  | cons c rest ih =>
      intro db hinv hmem hpw
      simp only [List.foldl_cons]
      have hcm := hmem c (List.mem_cons_self c rest)
      apply ih (autoCancelRow db c) (inv_autoCancelRow hinv hcm.1 hcm.2)
      · intro c2 hc2
        have h2 := hmem c2 (List.mem_cons_of_mem _ hc2)
        have hne : c2.id ≠ c.id :=
          fun hh => ((List.pairwise_cons.mp hpw).1 c2 hc2) hh.symm
        exact ⟨autoCancelRow_mem_claims h2.1 hne, h2.2⟩
      · exact (List.pairwise_cons.mp hpw).2

theorem inv_sweepCancel (n : Int) {db : DB} (hinv : Inv db) :
    Inv (auto_cancel_claimed_donations n db) := by
  unfold auto_cancel_claimed_donations
  apply inv_foldCancel _ _ hinv
  · intro c hc
    have hm := List.mem_filter.mp hc
    refine ⟨hm.1, ?_⟩
    have hp := hm.2
    simp only [Bool.and_eq_true, beq_iff_eq] at hp
    exact hp.1
  · apply List.Pairwise.filter
    have h := hinv.cnodup
    rw [List.Nodup, List.pairwise_map] at h
    exact h

theorem inv_step (a : Action) {db : DB} (hinv : Inv db) : Inv (step db a) := by
  cases a with
  | add t r => exact inv_add t r hinv
  | edit t i r => exact inv_edit t i r hinv
  | claim t n i g => exact inv_claim t n i g hinv
  | donorCancel i => exact inv_cancel i hinv
  | ngoCancel i g => exact inv_ngoCancel i g hinv
  | pickup i => exact inv_pickup i hinv
  | sweepExpire t => exact inv_sweepExpire t hinv
  | sweepCancel n => exact inv_sweepCancel n hinv

theorem inv_init : Inv initDB := by
  constructor
  case dnodup => exact List.nodup_nil
  case cnodup => exact List.nodup_nil
  all_goals intro x hx <;> cases hx

theorem reach_inv {db : DB} (h : Reachable db) : Inv db := by
  induction h with
  | init => exact inv_init
  | step a _ ih => exact inv_step a ih

/-! ### Row stability under sweeps -/

theorem expire_writes_stable : ∀ (cands : List Donation) (db : DB) {x : Nat},
    (∀ c ∈ cands, c.id ≠ x) →
    ∀ d' ∈ (applyWrites db (cands.map fun d =>
        Write.updateDonationFinal d.id (some FinalState.expired))).donations,
      d'.id = x → d' ∈ db.donations := by
  intro cands
  induction cands with
  | nil =>
      intro db x _ d' hd' _
      exact hd'
  | cons c rest ih =>
      intro db x hne d' hd' hid
      have h1 := ih (applyWrite db (Write.updateDonationFinal c.id (some FinalState.expired)))
        (fun c2 hc2 => hne c2 (List.mem_cons_of_mem _ hc2)) d' hd' hid
      simp only [applyWrite] at h1
      obtain ⟨d0, hd0, hde⟩ := List.mem_map.mp h1
      by_cases hc : (d0.id == c.id) = true
      · exfalso
        apply hne c (List.mem_cons_self c rest)
        rw [if_pos hc] at hde
        have h2 : d0.id = x := by rw [← hid, ← hde]
        rw [← beq_iff_eq.mp hc]
        exact h2
      · rw [if_neg hc] at hde
        rw [← hde]
        exact hd0

/-- Donations whose id is outside the touched candidate set survive the
auto-cancel loop unchanged. -/
theorem cancel_fold_stable : ∀ (cs : List Claim) (db : DB) {x : Nat},
    (∀ c ∈ cs, c.donation_id ≠ x) →
    ∀ d' ∈ (cs.foldl autoCancelRow db).donations, d'.id = x → d' ∈ db.donations := by
  intro cs
  induction cs with
  | nil =>
      intro db x _ d' hd' _
      exact hd'
  | cons c rest ih =>
      intro db x hne d' hd' hid
      simp only [List.foldl_cons] at hd'
      have h1 := ih (autoCancelRow db c)
        (fun c2 hc2 => hne c2 (List.mem_cons_of_mem _ hc2)) d' hd' hid
      have hcx : c.donation_id ≠ x := hne c (List.mem_cons_self c rest)
      unfold autoCancelRow at h1
      rcases hfd : findDonation db c.donation_id with _ | d0
      · rw [hfd] at h1
        exact h1
      · rw [hfd] at h1
        dsimp only at h1
        by_cases hcomp : d0.status = DStatus.completed
        · rw [if_pos hcomp] at h1
          exact h1
        · rw [if_neg hcomp] at h1
          simp only [applyWrites, List.foldl, applyWrite] at h1
          obtain ⟨d1, hd1, hde⟩ := List.mem_map.mp h1
          by_cases hc1 : (d1.id == c.donation_id) = true
          · exfalso
            apply hcx
            rw [← hid, ← hde, if_pos hc1]
            exact (beq_iff_eq.mp hc1).symm
          · rw [if_neg hc1] at hde
            rw [← hde]
            exact hd1

/-! ### Claim theorems -/

/-- C2: donor cancellation is permanent — in every reachable store, once
a donation's `final_state` is `cancelled_by_donor`, every lifecycle
action (NGO claim, NGO self-cancel, donor cancel, pickup-confirm, donor
edit, auto-expire sweep, auto-cancel sweep, creation) leaves that
donation's `status` and `final_state` unchanged: each such operation
either rejects or skips the donation. -/
theorem donor_cancel_permanent {db : DB} (hreach : Reachable db) {d : Donation}
    (hd : d ∈ db.donations)
    (hfs : d.final_state = some FinalState.cancelled_by_donor) (a : Action) :
    ∀ d' ∈ (step db a).donations, d'.id = d.id →
      d'.status = d.status ∧ d'.final_state = d.final_state := by
  have hinv := reach_inv hreach
  have huniq : ∀ d' ∈ db.donations, d'.id = d.id → d' = d :=
    fun d' h' hid => key_nodup_eq Donation.id hinv.dnodup h' hd hid
  have base : ∀ d' ∈ db.donations, d'.id = d.id →
      d'.status = d.status ∧ d'.final_state = d.final_state := by
    intro d' h' hid
    rw [huniq d' h' hid]
    exact ⟨rfl, rfl⟩
  have hzero : claimedCount db d.id = 0 := by
    rw [hinv.one d hd, if_neg (by rw [hinv.locked d hd hfs]; simp)]
  have hnoclaim : ∀ c ∈ db.claims, c.donation_id = d.id →
      c.status ≠ CStatus.claimed := by
    intro c hc hcd hcs
    have hpos : 0 < claimedCount db d.id :=
      List.countP_pos_iff.mpr ⟨c, hc, by simp [hcd, hcs]⟩
    omega
  have mapcase : ∀ (i : Nat) (f : Donation → Donation), (∀ x, (f x).id = x.id) →
      i ≠ d.id →
      ∀ d' ∈ (db.donations.map fun x => if x.id == i then f x else x), d'.id = d.id →
        d'.status = d.status ∧ d'.final_state = d.final_state := by
    intro i f hid hne d' hd' heq
    obtain ⟨d0, hd0, hde⟩ := List.mem_map.mp hd'
    by_cases hc : (d0.id == i) = true
    · exfalso
      apply hne
      have h1 : d'.id = d0.id := by rw [← hde, if_pos hc, hid d0]
      rw [← beq_iff_eq.mp hc, ← h1, heq]
    · rw [if_neg hc] at hde
      exact base d' (hde ▸ hd0) heq
  have mapcase2 : ∀ (p : Donation → Bool) (f : Donation → Donation),
      (∀ x, (f x).id = x.id ∧ (f x).status = x.status ∧
        (f x).final_state = x.final_state) →
      ∀ d' ∈ (db.donations.map fun x => if p x then f x else x), d'.id = d.id →
        d'.status = d.status ∧ d'.final_state = d.final_state := by
    intro p f hf d' hd' heq
    obtain ⟨d0, hd0, hde⟩ := List.mem_map.mp hd'
    by_cases hc : p d0 = true
    · rw [if_pos hc] at hde
      have hd0d : d0 = d := by
        apply huniq d0 hd0
        rw [← (hf d0).1, hde, heq]
      rw [← hde, (hf d0).2.1, (hf d0).2.2, hd0d]
      exact ⟨rfl, rfl⟩
    · rw [if_neg hc] at hde
      exact base d' (hde ▸ hd0) heq
  cases a with
  | add t r =>
      show ∀ d' ∈ (applyWrites db (add_donation t r db).2).donations, _
      unfold add_donation
      split
      · exact base
      · split
        · exact base
        · split
          · exact base
          · split
            · exact base
            · split
              · exact base
              · split
                · split
                  · exact base
                  · intro d' hd' heq
                    simp only [applyWrites, List.foldl, applyWrite] at hd'
                    rcases List.mem_append.mp hd' with h | h
                    · exact base d' h heq
                    · rw [List.mem_singleton] at h
                      exfalso
                      have : d.id < db.nextDonationId := hinv.dbound d hd
                      rw [← heq, h] at this
                      exact absurd this (lt_irrefl _)
                · intro d' hd' heq
                  simp only [applyWrites, List.foldl, applyWrite] at hd'
                  rcases List.mem_append.mp hd' with h | h
                  · exact base d' h heq
                  · rw [List.mem_singleton] at h
                    exfalso
                    have : d.id < db.nextDonationId := hinv.dbound d hd
                    rw [← heq, h] at this
                    exact absurd this (lt_irrefl _)
  | edit t i r =>
      show ∀ d' ∈ (applyWrites db (update_donation t i r db).2).donations, _
      unfold update_donation
      split
      · exact base
      · split
        · exact base
        · split
          · exact base
          · split
            · exact base
            · split
              · exact base
              · split
                · exact base
                · intro d' hd' heq
                  simp only [applyWrites, List.foldl, applyWrite] at hd'
                  exact mapcase2 (fun x => x.id == i)
                    (fun x => { x with
                        quantity := r.quantity.getD x.quantity,
                        expiry_date := r.expiry_date.getD x.expiry_date,
                        pickup_lat := r.pickup_lat.getD x.pickup_lat,
                        pickup_lng := r.pickup_lng.getD x.pickup_lng })
                    (fun x => ⟨rfl, rfl, rfl⟩) d' hd' heq
  | claim t n i g =>
      show ∀ d' ∈ (applyWrites db (claim_donation t n i g db).2).donations, _
      unfold claim_donation
      split
      · exact base
      next d0 hfd =>
        split
        · exact base
        next h1 =>
          split
          · exact base
          · split
            · exact base
            · intro d' hd' heq
              obtain ⟨hd0, hdi0⟩ := findDonation_some hfd
              have hne : i ≠ d.id := by
                intro hh
                apply h1
                rw [huniq d0 hd0 (hdi0.trans hh)] at h1 ⊢
                rw [hfs]
                simp
              simp only [applyWrites, List.foldl, applyWrite] at hd'
              exact mapcase i (fun x => { x with status := DStatus.claimed })
                (fun x => rfl) hne d' hd' heq
  | donorCancel i =>
      show ∀ d' ∈ (applyWrites db (cancel_donation i db).2).donations, _
      unfold cancel_donation
      split
      · exact base
      next d0 hfd =>
        split
        · exact base
        · split
          · exact base
          next h2 =>
            intro d' hd' heq
            obtain ⟨hd0, hdi0⟩ := findDonation_some hfd
            have hne : i ≠ d.id := by
              intro hh
              apply h2
              rw [huniq d0 hd0 (hdi0.trans hh)]
              exact hfs
            simp only [applyWrites, List.foldl, applyWrite] at hd'
            exact mapcase i (fun x => { x with status := DStatus.available, final_state := some FinalState.cancelled_by_donor })
              (fun x => rfl) hne d' hd' heq
  | ngoCancel i g =>
      show ∀ d' ∈ (applyWrites db (ngo_cancel_claim i g db).2).donations, _
      unfold ngo_cancel_claim
      split
      · exact base
      next c hfc =>
        intro d' hd' heq
        have hcm : c ∈ db.claims := List.mem_of_find?_eq_some hfc
        have hp := List.find?_some hfc
        simp only [Bool.and_eq_true, beq_iff_eq] at hp
        have hne : i ≠ d.id := by
          intro hh
          exact hnoclaim c hcm (hp.1.1.trans hh) hp.2
        simp only [applyWrites, List.foldl, applyWrite] at hd'
        exact mapcase i (fun x => { x with status := DStatus.available, final_state := some FinalState.cancelled_by_ngo })
          (fun x => rfl) hne d' hd' heq
  | pickup i =>
      show ∀ d' ∈ (applyWrites db (confirm_pickup i db).2).donations, _
      unfold confirm_pickup
      split
      · exact base
      next d0 hfd =>
        split
        · exact base
        next h1 =>
          split
          · exact base
          · split
            · exact base
            · intro d' hd' heq
              obtain ⟨hd0, hdi0⟩ := findDonation_some hfd
              have hne : i ≠ d.id := by
                intro hh
                apply h1
                rw [huniq d0 hd0 (hdi0.trans hh)] at h1 ⊢
                rw [hfs]
                simp
              simp only [applyWrites, List.foldl, applyWrite] at hd'
              exact mapcase i (fun x => { x with status := DStatus.completed })
                (fun x => rfl) hne d' hd' heq
  | sweepExpire t =>
      intro d' hd' heq
      have hcand : ∀ c ∈ expireCandidates t db, c.id ≠ d.id := by
        intro c hc hh
        have hm := List.mem_filter.mp hc
        have hcd : c = d := key_nodup_eq Donation.id hinv.dnodup hm.1 hd hh
        have hp := hm.2
        rw [hcd, hfs] at hp
        simp at hp
      have h1 := expire_writes_stable (expireCandidates t db) db hcand d' hd' heq
      exact base d' h1 heq
  | sweepCancel n =>
      intro d' hd' heq
      have hcand : ∀ c ∈ cancelCandidates n db, c.donation_id ≠ d.id := by
        intro c hc hh
        have hm := List.mem_filter.mp hc
        have hp := hm.2
        simp only [Bool.and_eq_true, beq_iff_eq] at hp
        exact hnoclaim c hm.1 hh hp.1
      have h1 := cancel_fold_stable (cancelCandidates n db) db hcand d' hd' heq
      exact base d' h1 heq

def c2_db : DB :=
  step (step initDB (Action.add 0 ⟨true, 7, some 5, some 100, none, none⟩))
    (Action.donorCancel 0)

/-- Witness for C2: in the reachable store where donation 0 was created
and then donor-cancelled, a subsequent NGO claim attempt leaves its
status `available` and final_state `cancelled_by_donor`. -/
theorem donor_cancel_permanent_witness :
    (⟨0, 7, DStatus.available, some FinalState.cancelled_by_donor, 100, 5,
        none, none⟩ : Donation).status = DStatus.available ∧
    (⟨0, 7, DStatus.available, some FinalState.cancelled_by_donor, 100, 5,
        none, none⟩ : Donation).final_state = some FinalState.cancelled_by_donor :=
  @donor_cancel_permanent c2_db
    (Reachable.step (Action.donorCancel 0)
      (Reachable.step (Action.add 0 ⟨true, 7, some 5, some 100, none, none⟩)
        Reachable.init))
    ⟨0, 7, DStatus.available, some FinalState.cancelled_by_donor, 100, 5,
        none, none⟩
    (by decide) rfl (Action.claim 1 10 0 9)
    ⟨0, 7, DStatus.available, some FinalState.cancelled_by_donor, 100, 5,
        none, none⟩
    (by decide) rfl

/-- C10: implicit invariant — in every reachable store, a donation whose
`final_state` is `cancelled_by_donor` has no `claimed` claim row.  Donor
cancel first cancels all active claims before setting the lock, and no
new claim can be created while it is set; this is what keeps the NGO
self-cancel and auto-cancel handlers (which never re-check `final_state`)
from overwriting the donor lock. -/
theorem donor_lock_no_active_claim {db : DB} (hreach : Reachable db) :
    ∀ d ∈ db.donations, d.final_state = some FinalState.cancelled_by_donor →
      claimedCount db d.id = 0 ∧
      ∀ c ∈ db.claims, c.donation_id = d.id → c.status ≠ CStatus.claimed := by
  have hinv := reach_inv hreach
  intro d hd hfs
  have hzero : claimedCount db d.id = 0 := by
    rw [hinv.one d hd, if_neg (by rw [hinv.locked d hd hfs]; simp)]
  refine ⟨hzero, ?_⟩
  intro c hc hcd hcs
  have hpos : 0 < claimedCount db d.id :=
    List.countP_pos_iff.mpr ⟨c, hc, by simp [hcd, hcs]⟩
  omega

def c10_db : DB :=
  step (step (step initDB (Action.add 0 ⟨true, 7, some 5, some 100, none, none⟩))
    (Action.claim 1 10 0 8)) (Action.donorCancel 0)

/-- Witness for C10: donation 0 was created, claimed by NGO 8, then
donor-cancelled; the lock state has zero active claim rows. -/
theorem donor_lock_no_active_claim_witness :
    claimedCount c10_db 0 = 0 :=
  (@donor_lock_no_active_claim c10_db
    (Reachable.step (Action.donorCancel 0)
      (Reachable.step (Action.claim 1 10 0 8)
        (Reachable.step (Action.add 0 ⟨true, 7, some 5, some 100, none, none⟩)
          Reachable.init)))
    (⟨0, 7, DStatus.available, some FinalState.cancelled_by_donor, 100, 5,
        none, none⟩)
    (by decide) rfl).1

/-- C3: in every reachable store, every donation id has at most one
claim row with status `claimed`; and invoking the NGO claim operation on
a donation whose status is already `claimed` returns a 409 state
conflict and issues no writes (so no second claim row is inserted). -/
theorem at_most_one_claimed_row {db : DB} (hreach : Reachable db) :
    (∀ did : Nat, claimedCount db did ≤ 1) ∧
    (∀ (t n : Int) (did g : Nat) (d : Donation), findDonation db did = some d →
      d.status = DStatus.claimed →
      (claim_donation t n did g db).1.code = 409 ∧
      (claim_donation t n did g db).2 = []) := by
  have hinv := reach_inv hreach
  constructor
  · intro did
    by_cases h : claimedCount db did = 0
    · omega
    · have hpos : 0 < claimedCount db did := Nat.pos_of_ne_zero h
      obtain ⟨c, hc, hq⟩ := List.countP_pos_iff.mp hpos
      simp only [Bool.and_eq_true, beq_iff_eq] at hq
      obtain ⟨d, hd, hdi⟩ := hinv.cexists c hc hq.2
      have hone := hinv.one d hd
      rw [hdi, hq.1] at hone
      rw [hone]
      split <;> omega
  · intro t n did g d hfd hst
    simp only [claim_donation, hfd]
    by_cases hf : d.final_state = none
    · rw [if_neg (by simp [hf]), if_pos (by rw [hst]; simp)]
      exact ⟨rfl, rfl⟩
    · rw [if_pos hf]
      exact ⟨rfl, rfl⟩

def c3_db : DB :=
  step (step initDB (Action.add 0 ⟨true, 7, some 5, some 100, none, none⟩))
    (Action.claim 1 10 0 8)

/-- Witness for C3: donation 0 is claimed by NGO 8; a second claim
attempt by NGO 9 gets a 409 and writes nothing. -/
theorem at_most_one_claimed_row_witness :
    claimedCount c3_db 0 ≤ 1 ∧
    (claim_donation 2 20 0 9 c3_db).1.code = 409 ∧
    (claim_donation 2 20 0 9 c3_db).2 = [] := by
  have h := @at_most_one_claimed_row c3_db
    (Reachable.step (Action.claim 1 10 0 8)
      (Reachable.step (Action.add 0 ⟨true, 7, some 5, some 100, none, none⟩)
        Reachable.init))
  exact ⟨h.1 0, h.2 2 20 0 9
    ⟨0, 7, DStatus.claimed, none, 100, 5, none, none⟩ (by decide) rfl⟩

/-- C4: pickup-confirm is idempotent.  (i) On a donation already
`completed` with `final_state` null it returns the non-error
"already confirmed" page (HTTP 200) and issues no writes;
(ii) on any status other than `claimed`/`completed` it rejects with 400
and no writes; (iii) in every reachable store `completed` is absorbing:
no action changes a completed donation's status, so a donation
transitions to `completed` at most once. -/
theorem pickup_confirm_idempotent {db : DB} (hreach : Reachable db) :
    (∀ (i : Nat) (d : Donation), findDonation db i = some d →
        d.status = DStatus.completed → d.final_state = none →
        confirm_pickup i db = (PickupResp.alreadyConfirmed, []) ∧
        PickupResp.alreadyConfirmed.code = 200) ∧
    (∀ (i : Nat) (d : Donation), findDonation db i = some d →
        d.status ≠ DStatus.claimed → d.status ≠ DStatus.completed →
        (confirm_pickup i db).1.code = 400 ∧ (confirm_pickup i db).2 = []) ∧
    (∀ d ∈ db.donations, d.status = DStatus.completed → ∀ (a : Action),
        ∀ d' ∈ (step db a).donations, d'.id = d.id →
          d'.status = DStatus.completed) := by
  have hinv := reach_inv hreach
  refine ⟨?_, ?_, ?_⟩
  · intro i d hfd hst hfs
    simp only [confirm_pickup, hfd]
    rw [if_neg (by simp [hfs]), if_pos hst]
    exact ⟨rfl, rfl⟩
  · intro i d hfd hncl hnco
    simp only [confirm_pickup, hfd]
    by_cases hf : d.final_state = none
    · rw [if_neg (by simp [hf]), if_neg hnco, if_pos hncl]
      exact ⟨rfl, rfl⟩
    · rw [if_pos hf]
      exact ⟨rfl, rfl⟩
  · intro d hd hst a
    have huniq : ∀ d' ∈ db.donations, d'.id = d.id → d' = d :=
      fun d' h' hid => key_nodup_eq Donation.id hinv.dnodup h' hd hid
    have base : ∀ d' ∈ db.donations, d'.id = d.id →
        d'.status = DStatus.completed := by
      intro d' h' hid
      rw [huniq d' h' hid, hst]
    have hzero : claimedCount db d.id = 0 := by
      rw [hinv.one d hd, if_neg (by rw [hst]; simp)]
    have hnoclaim : ∀ c ∈ db.claims, c.donation_id = d.id →
        c.status ≠ CStatus.claimed := by
      intro c hc hcd hcs
      have hpos : 0 < claimedCount db d.id :=
        List.countP_pos_iff.mpr ⟨c, hc, by simp [hcd, hcs]⟩
      omega
    have mapcase : ∀ (i : Nat) (f : Donation → Donation), (∀ x, (f x).id = x.id) →
        i ≠ d.id →
        ∀ d' ∈ (db.donations.map fun x => if x.id == i then f x else x),
          d'.id = d.id → d'.status = DStatus.completed := by
      intro i f hid hne d' hd' heq
      obtain ⟨d0, hd0, hde⟩ := List.mem_map.mp hd'
      by_cases hc : (d0.id == i) = true
      · exfalso
        apply hne
        have h1 : d'.id = d0.id := by rw [← hde, if_pos hc, hid d0]
        rw [← beq_iff_eq.mp hc, ← h1, heq]
      · rw [if_neg hc] at hde
        exact base d' (hde ▸ hd0) heq
    have mapcase2 : ∀ (p : Donation → Bool) (f : Donation → Donation),
        (∀ x, (f x).id = x.id ∧ (f x).status = x.status) →
        ∀ d' ∈ (db.donations.map fun x => if p x then f x else x), d'.id = d.id →
          d'.status = DStatus.completed := by
      intro p f hf d' hd' heq
      obtain ⟨d0, hd0, hde⟩ := List.mem_map.mp hd'
      by_cases hc : p d0 = true
      · rw [if_pos hc] at hde
        have hd0d : d0 = d := by
          apply huniq d0 hd0
          rw [← (hf d0).1, hde, heq]
        rw [← hde, (hf d0).2, hd0d, hst]
      · rw [if_neg hc] at hde
        exact base d' (hde ▸ hd0) heq
    cases a with
    | add t r =>
        show ∀ d' ∈ (applyWrites db (add_donation t r db).2).donations, _
        unfold add_donation
        split
        · exact base
        · split
          · exact base
          · split
            · exact base
            · split
              · exact base
              · split
                · exact base
                · split
                  · split
                    · exact base
                    · intro d' hd' heq
                      simp only [applyWrites, List.foldl, applyWrite] at hd'
                      rcases List.mem_append.mp hd' with h | h
                      · exact base d' h heq
                      · rw [List.mem_singleton] at h
                        exfalso
                        have hb : d.id < db.nextDonationId := hinv.dbound d hd
                        rw [← heq, h] at hb
                        exact absurd hb (lt_irrefl _)
                  · intro d' hd' heq
                    simp only [applyWrites, List.foldl, applyWrite] at hd'
                    rcases List.mem_append.mp hd' with h | h
                    · exact base d' h heq
                    · rw [List.mem_singleton] at h
                      exfalso
                      have hb : d.id < db.nextDonationId := hinv.dbound d hd
                      rw [← heq, h] at hb
                      exact absurd hb (lt_irrefl _)
    | edit t i r =>
        show ∀ d' ∈ (applyWrites db (update_donation t i r db).2).donations, _
        unfold update_donation
        split
        · exact base
        · split
          · exact base
          · split
            · exact base
            · split
              · exact base
              · split
                · exact base
                · split
                  · exact base
                  · intro d' hd' heq
                    simp only [applyWrites, List.foldl, applyWrite] at hd'
                    exact mapcase2 (fun x => x.id == i)
                      (fun x => { x with
                          quantity := r.quantity.getD x.quantity,
                          expiry_date := r.expiry_date.getD x.expiry_date,
                          pickup_lat := r.pickup_lat.getD x.pickup_lat,
                          pickup_lng := r.pickup_lng.getD x.pickup_lng })
                      (fun x => ⟨rfl, rfl⟩) d' hd' heq
    | claim t n i g =>
        show ∀ d' ∈ (applyWrites db (claim_donation t n i g db).2).donations, _
        unfold claim_donation
        split
        · exact base
        next d0 hfd =>
          split
          · exact base
          · split
            · exact base
            next h2 =>
              split
              · exact base
              · intro d' hd' heq
                obtain ⟨hd0, hdi0⟩ := findDonation_some hfd
                have hne : i ≠ d.id := by
                  intro hh
                  apply h2
                  rw [huniq d0 hd0 (hdi0.trans hh), hst]
                  simp
                simp only [applyWrites, List.foldl, applyWrite] at hd'
                exact mapcase i (fun x => { x with status := DStatus.claimed })
                  (fun x => rfl) hne d' hd' heq
    | donorCancel i =>
        show ∀ d' ∈ (applyWrites db (cancel_donation i db).2).donations, _
        unfold cancel_donation
        split
        · exact base
        next d0 hfd =>
          split
          · exact base
          next h1 =>
            split
            · exact base
            · intro d' hd' heq
              obtain ⟨hd0, hdi0⟩ := findDonation_some hfd
              have hne : i ≠ d.id := by
                intro hh
                apply h1
                rw [huniq d0 hd0 (hdi0.trans hh), hst]
              simp only [applyWrites, List.foldl, applyWrite] at hd'
              exact mapcase i (fun x => { x with status := DStatus.available, final_state := some FinalState.cancelled_by_donor })
                (fun x => rfl) hne d' hd' heq
    | ngoCancel i g =>
        show ∀ d' ∈ (applyWrites db (ngo_cancel_claim i g db).2).donations, _
        unfold ngo_cancel_claim
        split
        · exact base
        next c hfc =>
          intro d' hd' heq
          have hcm : c ∈ db.claims := List.mem_of_find?_eq_some hfc
          have hp := List.find?_some hfc
          simp only [Bool.and_eq_true, beq_iff_eq] at hp
          have hne : i ≠ d.id := by
            intro hh
            exact hnoclaim c hcm (hp.1.1.trans hh) hp.2
          simp only [applyWrites, List.foldl, applyWrite] at hd'
          exact mapcase i (fun x => { x with status := DStatus.available, final_state := some FinalState.cancelled_by_ngo })
            (fun x => rfl) hne d' hd' heq
    | pickup i =>
        show ∀ d' ∈ (applyWrites db (confirm_pickup i db).2).donations, _
        unfold confirm_pickup
        split
        · exact base
        next d0 hfd =>
          split
          · exact base
          · split
            · exact base
            · split
              · exact base
              next h3 =>
                intro d' hd' heq
                obtain ⟨hd0, hdi0⟩ := findDonation_some hfd
                have hne : i ≠ d.id := by
                  intro hh
                  apply h3
                  rw [huniq d0 hd0 (hdi0.trans hh), hst]
                  simp
                simp only [applyWrites, List.foldl, applyWrite] at hd'
                exact mapcase i (fun x => { x with status := DStatus.completed })
                  (fun x => rfl) hne d' hd' heq
    | sweepExpire t =>
        intro d' hd' heq
        have hcand : ∀ c ∈ expireCandidates t db, c.id ≠ d.id := by
          intro c hc hh
          have hm := List.mem_filter.mp hc
          have hcd : c = d := key_nodup_eq Donation.id hinv.dnodup hm.1 hd hh
          have hp := hm.2
          rw [hcd, hst] at hp
          simp at hp
        have h1 := expire_writes_stable (expireCandidates t db) db hcand d' hd' heq
        exact base d' h1 heq
    | sweepCancel n =>
        intro d' hd' heq
        have hcand : ∀ c ∈ cancelCandidates n db, c.donation_id ≠ d.id := by
          intro c hc hh
          have hm := List.mem_filter.mp hc
          have hp := hm.2
          simp only [Bool.and_eq_true, beq_iff_eq] at hp
          exact hnoclaim c hm.1 hh hp.1
        have h1 := cancel_fold_stable (cancelCandidates n db) db hcand d' hd' heq
        exact base d' h1 heq

def c4_db : DB :=
  step (step (step initDB (Action.add 0 ⟨true, 7, some 5, some 100, none, none⟩))
    (Action.claim 1 10 0 8)) (Action.pickup 0)

/-- Witness for C4: donation 0 was created, claimed and picked up; a
second scan returns the 200 "already confirmed" page with no writes, and
a donor-cancel attempt leaves the status `completed`. -/
theorem pickup_confirm_idempotent_witness :
    (confirm_pickup 0 c4_db = (PickupResp.alreadyConfirmed, []) ∧
      PickupResp.alreadyConfirmed.code = 200) ∧
    (⟨0, 7, DStatus.completed, none, 100, 5, none, none⟩ : Donation).status
      = DStatus.completed := by
  have h := @pickup_confirm_idempotent c4_db
    (Reachable.step (Action.pickup 0)
      (Reachable.step (Action.claim 1 10 0 8)
        (Reachable.step (Action.add 0 ⟨true, 7, some 5, some 100, none, none⟩)
          Reachable.init)))
  refine ⟨h.1 0 ⟨0, 7, DStatus.completed, none, 100, 5, none, none⟩
    (by decide) rfl rfl, ?_⟩
  exact h.2.2 ⟨0, 7, DStatus.completed, none, 100, 5, none, none⟩ (by decide) rfl
    (Action.donorCancel 0) ⟨0, 7, DStatus.completed, none, 100, 5, none, none⟩
    (by decide) rfl

theorem fold_mem_claims : ∀ (cs : List Claim) (db : DB) {c2 : Claim},
    c2 ∈ db.claims → (∀ a ∈ cs, a.id ≠ c2.id) →
    c2 ∈ (cs.foldl autoCancelRow db).claims := by
  intro cs
  induction cs with
  | nil =>
      intro db c2 hc2 _
      exact hc2
  | cons a rest ih =>
      intro db c2 hc2 hne
      simp only [List.foldl_cons]
      exact ih (autoCancelRow db a)
        (autoCancelRow_mem_claims hc2 (fun hh => hne a (List.mem_cons_self a rest) hh.symm))
        (fun b hb => hne b (List.mem_cons_of_mem _ hb))

/-- Lookup `findDonation` commutes with the donation writes of an auto-cancel
row: the row body either leaves the store alone or applies an
id-preserving pointwise map. -/
theorem autoCancelRow_findDonation (db : DB) (c2 : Claim) (did : Nat) :
    findDonation (autoCancelRow db c2) did = findDonation db did ∨
    (findDonation (autoCancelRow db c2) did
      = (findDonation db did).map fun x =>
          if x.id == c2.donation_id
          then { x with status := DStatus.available, final_state := none } else x) := by
  unfold autoCancelRow
  split
  · exact Or.inl rfl
  · split
    · exact Or.inl rfl
    · right
      show findDonation { db with
          donations := db.donations.map fun x =>
            if x.id == c2.donation_id
            then { x with status := DStatus.available, final_state := none } else x,
          claims := _ } did = _
      unfold findDonation
      exact find_map_key Donation.id _ (fun x => by
        by_cases h : (x.id == c2.donation_id) = true <;> simp [h]) db.donations did

theorem fold_donation_not_completed : ∀ (cs : List Claim) (db : DB) {did : Nat},
    (∃ d0, findDonation db did = some d0 ∧ d0.status ≠ DStatus.completed) →
    ∃ d1, findDonation (cs.foldl autoCancelRow db) did = some d1 ∧
      d1.status ≠ DStatus.completed := by
  intro cs
  induction cs with
  | nil =>
      intro db did h
      exact h
  | cons a rest ih =>
      intro db did h
      simp only [List.foldl_cons]
      apply ih
      obtain ⟨d0, hfd, hst⟩ := h
      rcases autoCancelRow_findDonation db a did with he | he
      · exact ⟨d0, he.trans hfd, hst⟩
      · rw [he, hfd]
        by_cases hc : (d0.id == a.donation_id) = true
        · exact ⟨{ d0 with status := DStatus.available, final_state := none },
            by simp only [Option.map_some']; rw [if_pos hc], by simp⟩
        · exact ⟨d0, by simp only [Option.map_some']; rw [if_neg hc], hst⟩

theorem fold_preserves_good : ∀ (cs : List Claim) (db : DB) {did cid : Nat},
    (∀ a ∈ cs, a.id ≠ cid) →
    (∃ c' ∈ db.claims, c'.id = cid ∧ c'.status = CStatus.cancelled) →
    (∃ d', findDonation db did = some d' ∧ d'.status = DStatus.available ∧
      d'.final_state = none) →
    (∃ c' ∈ (cs.foldl autoCancelRow db).claims, c'.id = cid ∧
      c'.status = CStatus.cancelled) ∧
    (∃ d', findDonation (cs.foldl autoCancelRow db) did = some d' ∧
      d'.status = DStatus.available ∧ d'.final_state = none) := by
  intro cs
  induction cs with
  | nil =>
      intro db did cid _ hcl hdn
      exact ⟨hcl, hdn⟩
  | cons a rest ih =>
      intro db did cid hne hcl hdn
      simp only [List.foldl_cons]
      apply ih (autoCancelRow db a) (fun b hb => hne b (List.mem_cons_of_mem _ hb))
      · obtain ⟨c', hc', hcid, hcs⟩ := hcl
        refine ⟨c', ?_, hcid, hcs⟩
        exact autoCancelRow_mem_claims hc'
          (fun hh => hne a (List.mem_cons_self a rest) (hh ▸ hcid ▸ rfl))
      · obtain ⟨d', hfd, hst, hfs⟩ := hdn
        rcases autoCancelRow_findDonation db a did with he | he
        · exact ⟨d', he.trans hfd, hst, hfs⟩
        · rw [he, hfd]
          by_cases hc : (d'.id == a.donation_id) = true
          · exact ⟨{ d' with status := DStatus.available, final_state := none },
              by simp only [Option.map_some']; rw [if_pos hc], by simp, by simp⟩
          · exact ⟨d', by simp only [Option.map_some']; rw [if_neg hc], hst, hfs⟩

theorem fold_skip_completed {c : Claim} {d : Donation}
    (hdid : d.id = c.donation_id) (hcomp : d.status = DStatus.completed) :
    ∀ (cs : List Claim) (db : DB),
    (∀ a ∈ cs, a.id = c.id → a = c) →
    c ∈ db.claims → findDonation db c.donation_id = some d →
    c ∈ (cs.foldl autoCancelRow db).claims ∧
    findDonation (cs.foldl autoCancelRow db) c.donation_id = some d := by
  intro cs
  induction cs with
  | nil =>
      intro db _ hc hfd
      exact ⟨hc, hfd⟩
  | cons a rest ih =>
      intro db hids hc hfd
      simp only [List.foldl_cons]
      by_cases hac : a = c
      · subst hac
        have hrow : autoCancelRow db a = db := by
          unfold autoCancelRow
          rw [hfd]
          dsimp only
          rw [if_pos hcomp]
        rw [hrow]
        exact ih db (fun b hb => hids b (List.mem_cons_of_mem _ hb)) hc hfd
      · have hane : a.id ≠ c.id := by
          intro hh
          exact hac (hids a (List.mem_cons_self a rest) hh)
        apply ih (autoCancelRow db a) (fun b hb => hids b (List.mem_cons_of_mem _ hb))
        · exact autoCancelRow_mem_claims hc hane.symm
        · rcases autoCancelRow_findDonation db a c.donation_id with he | he
          · rw [he]
            exact hfd
          · rw [he, hfd]
            -- the row body only writes donation `a.donation_id`; if it were
            -- `d`'s id the row would have been skipped (d is completed)
            by_cases hcc : (d.id == a.donation_id) = true
            · exfalso
              have hrow : autoCancelRow db a = db := by
                unfold autoCancelRow
                have : findDonation db a.donation_id = some d := by
                  rw [← beq_iff_eq.mp hcc, hdid]
                  exact hfd
                rw [this]
                dsimp only
                rw [if_pos hcomp]
              rw [hrow, hfd] at he
              simp only [Option.map_some'] at he
              rw [if_pos hcc] at he
              have hst2 : DStatus.completed = DStatus.available := by
                rw [← hcomp]
                exact congrArg Donation.status (Option.some.inj he)
              cases hst2
            · simp only [Option.map_some']
              rw [if_neg hcc]

/-- C9: the auto-cancel sweep, run on a `claimed` claim whose
`claimed_at` is exactly 24 hours old (the cutoff filter
`claimed_at <= now - 24h` is inclusive), cancels that claim and restores
its donation to (`available`, final_state null); and it skips — leaving
claim and donation rows entirely unchanged — any claim whose donation is
already `completed`. -/
theorem auto_cancel_boundary {db : DB} (now : Int)
    (hcn : (db.claims.map Claim.id).Nodup)
    {c : Claim} (hc : c ∈ db.claims) (hcs : c.status = CStatus.claimed)
    (hat : c.claimed_at = now - 24)
    {d : Donation} (hfd : findDonation db c.donation_id = some d) :
    (d.status ≠ DStatus.completed →
      (∃ c' ∈ (auto_cancel_claimed_donations now db).claims,
        c'.id = c.id ∧ c'.status = CStatus.cancelled) ∧
      (∃ d', findDonation (auto_cancel_claimed_donations now db) c.donation_id
          = some d' ∧ d'.status = DStatus.available ∧ d'.final_state = none)) ∧
    (d.status = DStatus.completed →
      c ∈ (auto_cancel_claimed_donations now db).claims ∧
      findDonation (auto_cancel_claimed_donations now db) c.donation_id = some d) := by
  have hdid : d.id = c.donation_id := (findDonation_some hfd).2
  have hccand : c ∈ cancelCandidates now db := by
    unfold cancelCandidates
    apply List.mem_filter.mpr
    refine ⟨hc, ?_⟩
    simp [hcs, hat]
  have hcandnd : ((cancelCandidates now db).map Claim.id).Nodup := by
    apply List.Nodup.sublist _ hcn
    exact (List.filter_sublist db.claims).map Claim.id
  have hidsAll : ∀ a ∈ cancelCandidates now db, a.id = c.id → a = c :=
    fun a ha hh => key_nodup_eq Claim.id hcandnd ha hccand hh
  constructor
  · -- the donation is not completed: the row is processed
    intro hncomp
    obtain ⟨pre, post, hsplit⟩ := List.append_of_mem hccand
    have hnd2 := hcandnd
    rw [hsplit, List.map_append, List.map_cons] at hnd2
    rw [List.nodup_append] at hnd2
    have hpre : ∀ a ∈ pre, a.id ≠ c.id := by
      intro a ha hh
      exact (hnd2.2.2 (List.mem_map_of_mem Claim.id ha))
        (by rw [hh]; exact List.mem_cons_self _ _)
    have hpost : ∀ a ∈ post, a.id ≠ c.id := by
      intro a ha hh
      have := (List.nodup_cons.mp hnd2.2.1).1
      exact this (by rw [← hh]; exact List.mem_map_of_mem Claim.id ha)
    unfold auto_cancel_claimed_donations
    rw [hsplit, List.foldl_append, List.foldl_cons]
    have h1 : c ∈ (pre.foldl autoCancelRow db).claims := fold_mem_claims pre db hc hpre
    obtain ⟨d1, hfd1, hst1⟩ := fold_donation_not_completed pre db ⟨d, hfd, hncomp⟩
    have hd1id : d1.id = c.donation_id := (findDonation_some hfd1).2
    set db1 := pre.foldl autoCancelRow db with hdb1
    have hrow : autoCancelRow db1 c
        = applyWrites db1
            [Write.updateClaimById c.id CStatus.cancelled,
             Write.updateDonationBoth c.donation_id DStatus.available none] := by
      unfold autoCancelRow
      rw [hfd1]
      dsimp only
      rw [if_neg hst1]
    rw [hrow]
    apply fold_preserves_good post _ hpost
    · refine ⟨{ c with status := CStatus.cancelled }, ?_, rfl, rfl⟩
      simp only [applyWrites, List.foldl, applyWrite]
      have hm := List.mem_map_of_mem
        (fun x : Claim => if x.id == c.id then { x with status := CStatus.cancelled } else x) h1
      simpa using hm
    · refine ⟨{ d1 with status := DStatus.available, final_state := none }, ?_, rfl, rfl⟩
      simp only [applyWrites, List.foldl, applyWrite]
      unfold findDonation
      unfold findDonation at hfd1
      rw [find_map_key Donation.id
        (fun x => if x.id == c.donation_id
          then { x with status := DStatus.available, final_state := none } else x)
        (fun x => by by_cases h : (x.id == c.donation_id) = true <;> simp [h])
        db1.donations c.donation_id]
      rw [hfd1]
      simp only [Option.map_some']
      rw [if_pos (by simpa using hd1id)]
  · intro hcomp
    exact fold_skip_completed hdid hcomp (cancelCandidates now db) db hidsAll hc hfd

def c9_db : DB :=
  ⟨[⟨0, 7, DStatus.claimed, none, 100, 5, none, none⟩],
   [⟨0, 0, 8, CStatus.claimed, -24⟩], 1, 1⟩

/-- Witness for C9: a claim placed exactly 24 hours ago (claimed_at
= now − 24h) on a non-completed donation is cancelled by the sweep and
the donation restored to (`available`, null). -/
theorem auto_cancel_boundary_witness :
    (∃ c' ∈ (auto_cancel_claimed_donations 0 c9_db).claims,
      c'.id = (⟨0, 0, 8, CStatus.claimed, -24⟩ : Claim).id ∧
      c'.status = CStatus.cancelled) ∧
    (∃ d', findDonation (auto_cancel_claimed_donations 0 c9_db)
        (⟨0, 0, 8, CStatus.claimed, -24⟩ : Claim).donation_id = some d' ∧
      d'.status = DStatus.available ∧ d'.final_state = none) :=
  (@auto_cancel_boundary c9_db 0 (by decide)
    ⟨0, 0, 8, CStatus.claimed, -24⟩ (by decide) rfl (by decide)
    ⟨0, 7, DStatus.claimed, none, 100, 5, none, none⟩ (by decide)).1
    (by decide)

/-! ### C1 — re-claiming after NGO self-cancel / stale-claim sweep -/

def c1_db : DB :=
  step (step (step initDB (Action.add 0 ⟨true, 7, some 5, some 100, none, none⟩))
    (Action.claim 1 10 0 8)) (Action.ngoCancel 0 8)

/-- Counterexample to C1: in the reachable store where donation 0 was
created, claimed by NGO 8, and self-cancelled by NGO 8, the donation is
in state (`available`, `cancelled_by_ngo`) with expiry 100 ≥ today 2 —
yet a claim attempt by NGO 9 returns conflict 409 and issues no writes,
instead of succeeding as the claim states. -/
theorem reclaim_after_ngo_cancel_cex :
    findDonation c1_db 0
      = some ⟨0, 7, DStatus.available, some FinalState.cancelled_by_ngo, 100, 5,
          none, none⟩ ∧
    ((2 : Int) ≤ 100) ∧
    claim_donation 2 20 0 9 c1_db = (ClaimResp.conflictFinalized, []) ∧
    ClaimResp.conflictFinalized.code = 409 := by
  refine ⟨by decide, by decide, by decide, rfl⟩

/-- C1 amended: a donation can be re-claimed only when its
`final_state` is null — as the stale-claim sweep leaves it.  With
(`available`, null) and expiry ≥ today the claim succeeds and inserts a
new `claimed` row; with any non-null `final_state` — including
`cancelled_by_ngo` after an NGO self-cancel, not only the donor lock —
the claim guard rejects with 409 and writes nothing. -/
theorem reclaim_requires_null_final_state :
    (∀ (db : DB) (i : Nat) (d : Donation) (t n : Int) (g : Nat),
      findDonation db i = some d → d.final_state = none →
      d.status = DStatus.available → t ≤ d.expiry_date →
      claim_donation t n i g db = (ClaimResp.success,
        [Write.insertClaim i g n, Write.updateDonationStatus i DStatus.claimed]) ∧
      (applyWrites db (claim_donation t n i g db).2).claims
        = db.claims ++ [⟨db.nextClaimId, i, g, CStatus.claimed, n⟩]) ∧
    (∀ (db : DB) (i : Nat) (d : Donation) (t n : Int) (g : Nat),
      findDonation db i = some d → d.final_state ≠ none →
      claim_donation t n i g db = (ClaimResp.conflictFinalized, []) ∧
      ClaimResp.conflictFinalized.code = 409) := by
  constructor
  · intro db i d t n g hfd hfs hst hexp
    have he : claim_donation t n i g db = (ClaimResp.success,
        [Write.insertClaim i g n, Write.updateDonationStatus i DStatus.claimed]) := by
      simp only [claim_donation, hfd]
      rw [if_neg (by simp [hfs]), if_neg (by simp [hst]),
        if_neg (by simpa using not_lt.mpr hexp)]
    refine ⟨he, ?_⟩
    rw [he]
    rfl
  · intro db i d t n g hfd hfs
    simp only [claim_donation, hfd]
    rw [if_pos hfs]
    exact ⟨rfl, rfl⟩

def c1_db2 : DB := step initDB (Action.add 0 ⟨true, 7, some 5, some 100, none, none⟩)

/-- Witness for the amended C1: a fresh (`available`, null) donation is
claimable; the (`available`, `cancelled_by_ngo`) donation of the NGO
self-cancel scenario is rejected with 409. -/
theorem reclaim_requires_null_final_state_witness :
    (claim_donation 2 20 0 9 c1_db2 = (ClaimResp.success,
      [Write.insertClaim 0 9 20, Write.updateDonationStatus 0 DStatus.claimed]) ∧
      (applyWrites c1_db2 (claim_donation 2 20 0 9 c1_db2).2).claims
        = c1_db2.claims ++ [⟨c1_db2.nextClaimId, 0, 9, CStatus.claimed, 20⟩]) ∧
    (claim_donation 2 20 0 9 c1_db = (ClaimResp.conflictFinalized, []) ∧
      ClaimResp.conflictFinalized.code = 409) :=
  ⟨reclaim_requires_null_final_state.1 c1_db2 0
      ⟨0, 7, DStatus.available, none, 100, 5, none, none⟩ 2 20 9
      (by decide) rfl rfl (by decide),
   reclaim_requires_null_final_state.2 c1_db 0
      ⟨0, 7, DStatus.available, some FinalState.cancelled_by_ngo, 100, 5, none, none⟩
      2 20 9 (by decide) (by decide)⟩

/-! ### C5 — write ordering and duplicate-safe filters -/

def c5_db : DB :=
  step (step initDB (Action.add 0 ⟨true, 7, some 5, some 100, none, none⟩))
    (Action.claim 1 10 0 8)

/-- Counterexample to C5: donor cancel — one of the actions the claim
quantifies over — issues the claim-row update (index 0) BEFORE the
donation state-column update (index 1), so the donation update is not
issued before the dependent claim-row update completes. -/
theorem state_write_order_cex :
    (cancel_donation 0 c5_db).1 = CancelResp.success ∧
    donationWriteFirst (cancel_donation 0 c5_db).2 = false := by decide

/-- C5 amended: the write order is per-handler, not uniform.  Donor
cancel issues the claim-row update (filtered on `donation_id` +
`status = claimed`) first and the donation update second; pickup-confirm
issues the donation update first and the claim update (same filter)
second; NGO claim inserts the claim row first and updates the donation
second.  The `donation_id` + old-status filter does make a duplicate
application of the claim-row update affect zero rows. -/
theorem state_write_order_amended :
    (∀ (db : DB) (i : Nat) (d : Donation), findDonation db i = some d →
      d.status ≠ DStatus.completed →
      d.final_state ≠ some FinalState.cancelled_by_donor →
      cancel_donation i db = (CancelResp.success,
        [Write.updateClaimsByDonation i CStatus.claimed CStatus.cancelled,
         Write.updateDonationBoth i DStatus.available
           (some FinalState.cancelled_by_donor)])) ∧
    (∀ (db : DB) (i : Nat) (d : Donation), findDonation db i = some d →
      d.final_state = none → d.status = DStatus.claimed →
      confirm_pickup i db = (PickupResp.success,
        [Write.updateDonationStatus i DStatus.completed,
         Write.updateClaimsByDonation i CStatus.claimed CStatus.completed])) ∧
    (∀ (db : DB) (i g : Nat) (d : Donation) (t n : Int),
      findDonation db i = some d →
      d.final_state = none → d.status = DStatus.available → t ≤ d.expiry_date →
      claim_donation t n i g db = (ClaimResp.success,
        [Write.insertClaim i g n, Write.updateDonationStatus i DStatus.claimed])) ∧
    (∀ (db : DB) (i : Nat) (s : CStatus), s ≠ CStatus.claimed →
      matchingClaims
        (applyWrite db (Write.updateClaimsByDonation i CStatus.claimed s))
        i CStatus.claimed = 0) := by
  refine ⟨?_, ?_, ?_, ?_⟩
  · intro db i d hfd hnc hnf
    simp only [cancel_donation, hfd]
    rw [if_neg hnc, if_neg hnf]
  · intro db i d hfd hfs hst
    simp only [confirm_pickup, hfd]
    rw [if_neg (by simp [hfs]), if_neg (by rw [hst]; simp),
      if_neg (by simp [hst])]
  · intro db i g d t n hfd hfs hst hexp
    simp only [claim_donation, hfd]
    rw [if_neg (by simp [hfs]), if_neg (by simp [hst]),
      if_neg (by simpa using not_lt.mpr hexp)]
  · intro db i s hs
    show claimedCount (applyWrite db (Write.updateClaimsByDonation i CStatus.claimed s)) i = 0
    rw [claimedCount_updateByDonation db i s hs i, if_pos rfl]

/-- Witness for the amended C5, on the store with donation 0 claimed by
NGO 8: the three write sequences and the zero-row duplicate update. -/
theorem state_write_order_amended_witness :
    cancel_donation 0 c5_db = (CancelResp.success,
      [Write.updateClaimsByDonation 0 CStatus.claimed CStatus.cancelled,
       Write.updateDonationBoth 0 DStatus.available
         (some FinalState.cancelled_by_donor)]) ∧
    confirm_pickup 0 c5_db = (PickupResp.success,
      [Write.updateDonationStatus 0 DStatus.completed,
       Write.updateClaimsByDonation 0 CStatus.claimed CStatus.completed]) ∧
    matchingClaims
      (applyWrite c5_db (Write.updateClaimsByDonation 0 CStatus.claimed CStatus.cancelled))
      0 CStatus.claimed = 0 :=
  ⟨state_write_order_amended.1 c5_db 0
      ⟨0, 7, DStatus.claimed, none, 100, 5, none, none⟩ (by decide) (by decide) (by decide),
   state_write_order_amended.2.1 c5_db 0
      ⟨0, 7, DStatus.claimed, none, 100, 5, none, none⟩ (by decide) rfl rfl,
   state_write_order_amended.2.2.2 c5_db 0 CStatus.cancelled (by decide)⟩

/-! ### C6 — what the scheduler actually registers -/

/-- Counterexample to C6: `start_scheduler` does not register the
auto-expire sweep nor the auto-cancel sweep — with any interval. -/
theorem scheduler_registers_both_sweeps_cex :
    ¬((∃ j ∈ start_scheduler, j.fn = JobFn.auto_expire_donations_fn) ∧
      (∃ j ∈ start_scheduler, j.fn = JobFn.auto_cancel_claimed_donations_fn)) := by
  decide

/-- C6 amended: the background scheduler registers exactly one periodic
job — `send_expiry_reminders`, every 24 hours.  The auto-expire and
auto-cancel sweeps are not scheduled; they are reachable only through
their HTTP endpoints. -/
theorem scheduler_registers_only_reminders :
    start_scheduler = [⟨JobFn.send_expiry_reminders, 24⟩] ∧
    (∀ j ∈ start_scheduler, j.fn = JobFn.send_expiry_reminders ∧
      j.interval_hours = 24) := by
  refine ⟨rfl, ?_⟩
  intro j hj
  unfold start_scheduler at hj
  rw [List.mem_singleton] at hj
  rw [hj]
  exact ⟨rfl, rfl⟩

/-- Witness for the amended C6 at the single registered job. -/
theorem scheduler_registers_only_reminders_witness :
    (⟨JobFn.send_expiry_reminders, 24⟩ : ScheduledJob).fn
        = JobFn.send_expiry_reminders ∧
    (⟨JobFn.send_expiry_reminders, 24⟩ : ScheduledJob).interval_hours = 24 :=
  scheduler_registers_only_reminders.2 ⟨JobFn.send_expiry_reminders, 24⟩
    (by decide)

/-! ### C7 — row-level failures in the sweep loops -/

theorem autoExpireGo_abort (raises : Nat → Bool) :
    ∀ (pre : List Donation) (f : Donation) (post : List Donation) (db : DB),
    (∀ p ∈ pre, raises p.id = false) → raises f.id = true →
    autoExpireGo raises (pre ++ f :: post) db
      = Except.error (applyWrites db
          (pre.map fun p => Write.updateDonationFinal p.id (some FinalState.expired))) := by
  intro pre
  induction pre with
  | nil =>
      intro f post db _ hf
      simp only [List.nil_append, autoExpireGo, hf, if_true]
      rfl
  | cons p rest ih =>
      intro f post db hpre hf
      have hp : raises p.id = false := hpre p (List.mem_cons_self p rest)
      simp only [List.cons_append, autoExpireGo, hp]
      rw [if_neg (by simp)]
      exact ih f post _ (fun q hq => hpre q (List.mem_cons_of_mem _ hq)) hf

theorem autoExpireGo_ok (raises : Nat → Bool) :
    ∀ (rows : List Donation) (db : DB), (∀ p ∈ rows, raises p.id = false) →
    autoExpireGo raises rows db
      = Except.ok (applyWrites db
          (rows.map fun p => Write.updateDonationFinal p.id (some FinalState.expired))) := by
  intro rows
  induction rows with
  | nil =>
      intro db _
      rfl
  | cons p rest ih =>
      intro db hrows
      have hp : raises p.id = false := hrows p (List.mem_cons_self p rest)
      simp only [autoExpireGo, hp]
      rw [if_neg (by simp)]
      exact ih _ (fun q hq => hrows q (List.mem_cons_of_mem _ hq))

theorem autoCancelGo_abort (raises : Nat → Bool) :
    ∀ (pre : List Claim) (f : Claim) (post : List Claim) (db : DB),
    (∀ p ∈ pre, raises p.id = false) → raises f.id = true →
    autoCancelGo raises (pre ++ f :: post) db
      = Except.error (pre.foldl autoCancelRow db) := by
  intro pre
  induction pre with
  | nil =>
      intro f post db _ hf
      simp only [List.nil_append, autoCancelGo, hf, if_true]
      rfl
  | cons p rest ih =>
      intro f post db hpre hf
      have hp : raises p.id = false := hpre p (List.mem_cons_self p rest)
      simp only [List.cons_append, autoCancelGo, hp]
      rw [if_neg (by simp)]
      exact ih f post _ (fun q hq => hpre q (List.mem_cons_of_mem _ hq)) hf

theorem autoCancelGo_ok (raises : Nat → Bool) :
    ∀ (rows : List Claim) (db : DB), (∀ p ∈ rows, raises p.id = false) →
    autoCancelGo raises rows db = Except.ok (rows.foldl autoCancelRow db) := by
  intro rows
  induction rows with
  | nil =>
      intro db _
      rfl
  | cons p rest ih =>
      intro db hrows
      have hp : raises p.id = false := hrows p (List.mem_cons_self p rest)
      simp only [autoCancelGo, hp]
      rw [if_neg (by simp)]
      exact ih _ (fun q hq => hrows q (List.mem_cons_of_mem _ hq))

def c7_db : DB :=
  ⟨[⟨1, 7, DStatus.available, none, 0, 5, none, none⟩,
    ⟨2, 7, DStatus.available, none, 0, 5, none, none⟩], [], 3, 0⟩

/-- Counterexample to C7: both donations 1 and 2 are candidates of the
auto-expire sweep, yet when processing row 1 raises, the sweep aborts
with the store unchanged — donation 2 is never processed (its
`final_state` stays null), so one row's failure does abort the
remaining candidate rows. -/
theorem sweep_row_failure_isolated_cex :
    (expireCandidates 10 c7_db).map Donation.id = [1, 2] ∧
    auto_expire_exc (fun i => i == 1) 10 c7_db = Except.error c7_db ∧
    (findDonation c7_db 2).map Donation.final_state = some none :=
  ⟨by decide, rfl, by decide⟩

/-- C7 amended: sweep row-level failures are NOT isolated — the loop
bodies have no per-row try/except (only the e-mail sends do).  A failure
while processing one candidate aborts the sweep: rows processed before
the failing row keep their updates, the failing and all remaining rows
are left unprocessed, and the handler returns an error.  With no row
failures each sweep completes normally. -/
theorem sweep_row_failure_aborts :
    (∀ (raises : Nat → Bool) (today : Int) (db : DB) (pre : List Donation)
        (f : Donation) (post : List Donation),
      expireCandidates today db = pre ++ f :: post →
      (∀ p ∈ pre, raises p.id = false) → raises f.id = true →
      auto_expire_exc raises today db
        = Except.error (applyWrites db
            (pre.map fun p => Write.updateDonationFinal p.id
              (some FinalState.expired)))) ∧
    (∀ (raises : Nat → Bool) (now : Int) (db : DB) (pre : List Claim)
        (f : Claim) (post : List Claim),
      cancelCandidates now db = pre ++ f :: post →
      (∀ p ∈ pre, raises p.id = false) → raises f.id = true →
      auto_cancel_exc raises now db = Except.error (pre.foldl autoCancelRow db)) ∧
    (∀ (today : Int) (db : DB),
      auto_expire_exc (fun _ => false) today db
        = Except.ok (applyWrites db (auto_expire_donations today db))) ∧
    (∀ (now : Int) (db : DB),
      auto_cancel_exc (fun _ => false) now db
        = Except.ok (auto_cancel_claimed_donations now db)) := by
  refine ⟨?_, ?_, ?_, ?_⟩
  · intro raises today db pre f post hsplit hpre hf
    unfold auto_expire_exc
    rw [hsplit]
    exact autoExpireGo_abort raises pre f post db hpre hf
  · intro raises now db pre f post hsplit hpre hf
    unfold auto_cancel_exc
    rw [hsplit]
    exact autoCancelGo_abort raises pre f post db hpre hf
  · intro today db
    unfold auto_expire_exc auto_expire_donations
    exact autoExpireGo_ok _ _ db (fun p _ => rfl)
  · intro now db
    unfold auto_cancel_exc auto_cancel_claimed_donations
    exact autoCancelGo_ok _ _ db (fun p _ => rfl)

/-- Witness for the amended C7 on the two-candidate store: a failure on
row 1 (the first candidate) aborts the sweep with zero rows processed. -/
theorem sweep_row_failure_aborts_witness :
    auto_expire_exc (fun i => i == 1) 10 c7_db
      = Except.error (applyWrites c7_db
          (([] : List Donation).map fun p =>
            Write.updateDonationFinal p.id (some FinalState.expired))) :=
  sweep_row_failure_aborts.1 (fun i => i == 1) 10 c7_db []
    ⟨1, 7, DStatus.available, none, 0, 5, none, none⟩
    [⟨2, 7, DStatus.available, none, 0, 5, none, none⟩]
    (by decide) (by decide) (by decide)

/-! ### C8 — pickup-coordinate validation -/

/-- Counterexample to C8: a creation request supplying ONLY
`pickup_lat` (= 1000, far out of range) and no `pickup_lng` is not
rejected — the coordinate block runs only when both are non-null — and
a row is inserted (201), storing the bogus latitude. -/
theorem coord_validation_cex :
    add_donation 0 ⟨true, 7, some 5, some 100, some 1000, none⟩ initDB
      = (AddResp.created, [Write.insertDonation 7 100 5 (some 1000) none]) ∧
    AddResp.created.code = 201 ∧
    (applyWrites initDB
        (add_donation 0 ⟨true, 7, some 5, some 100, some 1000, none⟩ initDB).2).donations
      = [⟨0, 7, DStatus.available, none, 100, 5, some 1000, none⟩] := by
  refine ⟨by decide, rfl, by decide⟩

/-- C8 amended: at creation the coordinate range check
(lat ∈ [-90,90], lng ∈ [-180,180]) runs only when BOTH coordinates are
present: then an out-of-range pair is rejected with 400 and no row is
written, and an in-range pair is stored.  A request supplying only one
coordinate (or none) skips the check entirely and the row is inserted
as given.  At edit, coordinates are never range-checked: any numeric
value — such as latitude 1000 — is accepted and written. -/
theorem coord_validation_amended :
    (∀ (t : Int) (db : DB) (donor : Nat) (q e : Int) (la ln : ℚ),
      0 < q → t < e → (la < -90 ∨ 90 < la ∨ ln < -180 ∨ 180 < ln) →
      add_donation t ⟨true, donor, some q, some e, some la, some ln⟩ db
        = (AddResp.coordOutOfRange, []) ∧ AddResp.coordOutOfRange.code = 400) ∧
    (∀ (t : Int) (db : DB) (donor : Nat) (q e : Int) (la ln : ℚ),
      0 < q → t < e → ¬(la < -90 ∨ 90 < la ∨ ln < -180 ∨ 180 < ln) →
      add_donation t ⟨true, donor, some q, some e, some la, some ln⟩ db
        = (AddResp.created, [Write.insertDonation donor e q (some la) (some ln)])) ∧
    (∀ (t : Int) (db : DB) (donor : Nat) (q e : Int) (la? : Option ℚ),
      0 < q → t < e →
      add_donation t ⟨true, donor, some q, some e, la?, none⟩ db
        = (AddResp.created, [Write.insertDonation donor e q la? none])) ∧
    (∀ (t : Int) (i : Nat) (db : DB) (d : Donation) (la : ℚ),
      findDonation db i = some d → d.final_state = none →
      d.status ≠ DStatus.completed →
      update_donation t i ⟨none, none, some (some la), none, false⟩ db
        = (UpdateResp.success,
           [Write.updateDonationFields i none none (some (some la)) none])) := by
  refine ⟨?_, ?_, ?_, ?_⟩
  · intro t db donor q e la ln hq he hrange
    simp only [add_donation, Bool.not_true]
    rw [if_neg (by simp), if_neg (by omega), if_neg (by omega), if_pos hrange]
    exact ⟨rfl, rfl⟩
  · intro t db donor q e la ln hq he hrange
    simp only [add_donation, Bool.not_true]
    rw [if_neg (by simp), if_neg (by omega), if_neg (by omega), if_neg hrange]
  · intro t db donor q e la? hq he
    simp only [add_donation, Bool.not_true]
    rw [if_neg (by simp), if_neg (by omega), if_neg (by omega)]
  · intro t i db d la hfd hfs hnc
    simp only [update_donation, hfd]
    rw [if_neg (by simp [hfs]), if_neg hnc]
    rfl

def c8_db : DB := step initDB (Action.add 0 ⟨true, 7, some 5, some 100, none, none⟩)

/-- Witness for the amended C8: an out-of-range pair is rejected, a
lone latitude of 1000 is stored at creation, and an edit setting
latitude 1000 on donation 0 succeeds. -/
theorem coord_validation_amended_witness :
    (add_donation 0 ⟨true, 7, some 5, some 100, some 1000, some 0⟩ initDB
        = (AddResp.coordOutOfRange, []) ∧ AddResp.coordOutOfRange.code = 400) ∧
    add_donation 0 ⟨true, 7, some 5, some 100, some 1000, none⟩ initDB
      = (AddResp.created, [Write.insertDonation 7 100 5 (some 1000) none]) ∧
    update_donation 0 0 ⟨none, none, some (some 1000), none, false⟩ c8_db
      = (UpdateResp.success,
         [Write.updateDonationFields 0 none none (some (some 1000)) none]) :=
  ⟨coord_validation_amended.1 0 initDB 7 5 100 1000 0 (by decide) (by decide)
      (by norm_num),
   coord_validation_amended.2.2.1 0 initDB 7 5 100 (some 1000) (by decide) (by decide),
   coord_validation_amended.2.2.2 0 0 c8_db
      ⟨0, 7, DStatus.available, none, 100, 5, none, none⟩ 1000
      (by decide) rfl (by decide)⟩

end FoodShare
